import Mathlib

/-!
Shallow embedding of the ECEN batch-costing reporting engine
(src/components/ECENApp.jsx, with the earlier variant in src/unnamed/part_000).

The embedding translates the pure computational core of the source:

* `parseNum` — numeric normalization (comma to period, JS `Number` parsing,
  non-finite results degrade to zero);
* `formatBatchNameFromDate` / `batchNameOf` — display-name derivation for a
  purchase batch;
* `calculateReports` — the reporting engine: per-batch aggregation, customer
  debt aggregation, and the totals rollup.

JavaScript numbers are modelled as exact rationals (`ℚ`); JS `Map` objects
are modelled as association lists with first-match lookup and
replace-in-place/append-at-end insertion, which reproduces the insertion-order
iteration semantics of `Map`.  A snapshot collection that is missing or not an
array is modelled as `none`; a `null`/`undefined` element inside a collection
is modelled as `none` inside the list.
-/

set_option allowUnsafeReducibility true
attribute [local semireducible] Rat.add Rat.mul Rat.sub Rat.inv

/-- A JavaScript field value as it can occur in a stored record: a finite
number (modelled exactly as a rational), a string, `null`, or `undefined`. -/
inductive Val where
  | num (q : ℚ)
  | str (s : String)
  | null
  | undef
deriving DecidableEq, Repr

/-- Trim leading and trailing whitespace, as JS `Number(string)` does before
parsing. -/
def jsTrim (cs : List Char) : List Char :=
  ((cs.dropWhile Char.isWhitespace).reverse.dropWhile Char.isWhitespace).reverse

/-- Numeric value of an ASCII decimal digit. -/
def digVal (c : Char) : Nat := c.toNat - 48

/-- Value of a list of decimal digits, most significant first. -/
def decDigits (cs : List Char) : Nat := cs.foldl (fun a c => 10 * a + digVal c) 0

/-- Split a character list at the first exponent marker `e`/`E`, returning the
mantissa part and (when a marker is present) the exponent part. -/
def splitExp : List Char → List Char × Option (List Char)
  | [] => ([], none)
  | c :: t =>
    if c = 'e' ∨ c = 'E' then ([], some t)
    else
      let p := splitExp t
      (c :: p.1, p.2)

/-- Parse an unsigned decimal mantissa: digits, optionally followed by a
period and further digits; at least one digit must be present overall.
Mirrors the decimal-literal grammar accepted by JS `Number`. -/
def parseUnsignedDec (cs : List Char) : Option ℚ :=
  let intPart := cs.takeWhile Char.isDigit
  let rest := cs.dropWhile Char.isDigit
  match rest with
  | [] => if intPart.isEmpty then none else some (decDigits intPart : ℚ)
  | c :: t =>
    if c = '.' then
      if t.all Char.isDigit then
        if intPart.isEmpty ∧ t.isEmpty then none
        else some ((decDigits intPart : ℚ) + (decDigits t : ℚ) / (10 : ℚ) ^ t.length)
      else none
    else none

/-- Parse an optional sign followed by a payload handled by `f`. -/
def parseSigned (f : List Char → Option ℚ) : List Char → Option ℚ
  | '+' :: t => f t
  | '-' :: t => (f t).map Neg.neg
  | cs => f cs

/-- Parse the exponent part after `e`/`E`: optional sign, then at least one
digit. -/
def parseExpPart : List Char → Option Int
  | '+' :: t => if !t.isEmpty ∧ t.all Char.isDigit then some (decDigits t : Int) else none
  | '-' :: t => if !t.isEmpty ∧ t.all Char.isDigit then some (-(decDigits t : Int)) else none
  | cs => if !cs.isEmpty ∧ cs.all Char.isDigit then some (decDigits cs : Int) else none

/-- `10 ^ e` for an integer exponent, as a rational. -/
def tenPow (e : Int) : ℚ :=
  if 0 ≤ e then (10 : ℚ) ^ e.toNat else ((10 : ℚ) ^ (-e).toNat)⁻¹

/-- Parse a signed decimal literal with an optional exponent. -/
def parseDecLit (cs : List Char) : Option ℚ :=
  let p := splitExp cs
  let base := parseSigned parseUnsignedDec p.1
  match p.2 with
  | none => base
  | some ecs =>
    match parseExpPart ecs, base with
    | some e, some b => some (b * tenPow e)
    | _, _ => none

/-- Parse an unsigned radix literal (the part after `0x`, `0o`, `0b`). -/
def parseRadix (r : Nat) (valid : Char → Bool) (dv : Char → Nat)
    (cs : List Char) : Option ℚ :=
  if !cs.isEmpty ∧ cs.all valid then
    some ((cs.foldl (fun a c => r * a + dv c) 0 : Nat) : ℚ)
  else none

/-- Hex digit predicate and value. -/
def isHexDigitChar (c : Char) : Bool :=
  c.isDigit ∨ ('a' ≤ c ∧ c ≤ 'f') ∨ ('A' ≤ c ∧ c ≤ 'F')

/-- Value of a hex digit. -/
def hexVal (c : Char) : Nat :=
  if c.isDigit then digVal c
  else if 'a' ≤ c ∧ c ≤ 'f' then c.toNat - 87
  else c.toNat - 55

/-- Model of JS `Number(string)` restricted to finite results: `some q` when
the string parses to the finite number `q`, `none` when the result is `NaN`
or infinite.  Covers the whitespace-trimmed empty string (value `0`),
`Infinity` (non-finite, hence `none`), hex/octal/binary literals, and signed
decimal literals with optional exponent.  Numeric overflow to `Infinity` is
not modelled: values are exact rationals. -/
def jsNumberOfChars (cs0 : List Char) : Option ℚ :=
  let cs := jsTrim cs0
  if cs.isEmpty then some 0
  else if cs = "Infinity".data ∨ cs = "+Infinity".data ∨ cs = "-Infinity".data then none
  else
    match cs with
    | '0' :: x :: t =>
      if x = 'x' ∨ x = 'X' then parseRadix 16 isHexDigitChar hexVal t
      else if x = 'b' ∨ x = 'B' then parseRadix 2 (fun c => c = '0' ∨ c = '1') digVal t
      else if x = 'o' ∨ x = 'O' then parseRadix 8 (fun c => '0' ≤ c ∧ c ≤ '7') digVal t
      else parseDecLit cs
    | _ => parseDecLit cs

/-- Model of JS `Number` on a string. -/
def jsNumber (s : String) : Option ℚ := jsNumberOfChars s.data

/-- `String.replace(/,/g, ".")`: replace every comma by a period. -/
def replaceCommas (s : String) : String :=
  String.mk (s.data.map (fun c => if c = ',' then '.' else c))

/-- Source (ECENApp.jsx lines 11-14):
`const n = Number(String(v ?? "").replace(/,/g, ".")); return Number.isFinite(n) ? n : 0;`
For a finite number `String` followed by `Number` is the identity (the
produced string has no commas), `null ?? ""` and `undefined ?? ""` are the
empty string whose `Number` value is `0`, and a string is comma-normalized
and parsed, degrading to `0` when the result is not finite. -/
def parseNum (v : Val) : ℚ :=
  match v with
  | .num q => q
  | .str s => (jsNumber (replaceCommas s)).getD 0
  | .null => 0
  | .undef => 0

section NameUtils

/-- JS `String.split("-")` on a character list. -/
def splitDash : List Char → List (List Char)
  | [] => [[]]
  | c :: t =>
    if c = '-' then [] :: splitDash t
    else
      match splitDash t with
      | [] => [[c]]
      | h :: r => (c :: h) :: r

/-- JS `padStart(2, '0')`. -/
def padStart2 (s : String) : String :=
  if s.length < 2 then String.mk (List.replicate (2 - s.length) '0') ++ s else s

/-- Model of the JS `new Date(dateStr)` fallback branch of
`formatBatchNameFromDate` (ECENApp.jsx lines 21-27).  Every date string
reaching this branch in the theorems below is one the JS `Date` constructor
cannot parse; for those, `getDate`/`getMonth`/`getFullYear` return `NaN` and
the produced name is `P - NaNNaNNaN`.  Date-parseable strings reaching this
branch would produce an environment/timezone-dependent name, which is not
modelled; no theorem in this file depends on that case. -/
def invalidDateName (_ds : String) : String := "P - NaNNaNNaN"

/-- Source (ECENApp.jsx lines 17-28): empty/missing date gives the sentinel,
a date splitting on `-` into at least three parts with the first three
nonempty is formatted as `P - DDMMYYYY` from the first three parts, and
anything else falls back to the JS `Date` constructor. -/
def formatBatchNameFromDate (dateStr : Option String) : String :=
  match dateStr with
  | none => "P - ?"
  | some ds =>
    if ds = "" then "P - ?"
    else
      match splitDash ds.data with
      | y :: m :: d :: _ =>
        if !y.isEmpty ∧ !m.isEmpty ∧ !d.isEmpty then
          "P - " ++ String.mk d ++ String.mk m ++ String.mk y
        else invalidDateName ds
      | _ => invalidDateName ds

end NameUtils

/-! ## Record types and snapshots -/

/-- A purchase record (one purchase is one batch).  Display-only fields that
the engine and the naming utility never read (creation timestamps, the stored
`amount`) are omitted.  `date`, `batchSeq` and `batchName` are optional; a
missing field is `none`. -/
structure Purchase where
  id : String
  date : Option String
  qty : Val
  unitPrice : Val
  batchSeq : Option String
  batchName : Option String
deriving DecidableEq, Repr

/-- A sale record.  A missing or blank `customer` is modelled as the empty
string (both are falsy in the source and behave identically). -/
structure Sale where
  batchId : String
  customer : String
  qty : Val
  unitPrice : Val
deriving DecidableEq, Repr

/-- An expense record. -/
structure Expense where
  batchId : String
  amount : Val
deriving DecidableEq, Repr

/-- A payment record. -/
structure Payment where
  customer : String
  amount : Val
deriving DecidableEq, Repr

/-- A snapshot handed to the engine.  A field that is missing or not an array
is `none`; a `null`/`undefined` element inside a collection is `none`. -/
structure Snapshot where
  purchases : Option (List (Option Purchase))
  sales : Option (List (Option Sale))
  expenses : Option (List (Option Expense))
  payments : Option (List (Option Payment))
deriving DecidableEq, Repr

/-- Source (ECENApp.jsx lines 33-38): stored `batchName` wins when truthy;
otherwise the name is rebuilt from `date`, with a `-SS` suffix when
`batchSeq` is truthy; a missing purchase gives the sentinel. -/
def batchNameOf (op : Option Purchase) : String :=
  match op with
  | none => "P - ?"
  | some pur =>
    match pur.batchName with
    | some nm =>
      if nm ≠ "" then nm
      else batchNameNoStored pur
    | none => batchNameNoStored pur
where
  /-- The no-stored-name branch of `batchNameOf`. -/
  batchNameNoStored (pur : Purchase) : String :=
    let base := formatBatchNameFromDate pur.date
    match pur.batchSeq with
    | some sq => if sq ≠ "" then base ++ "-" ++ padStart2 sq else base
    | none => base

/-! ## The JS `Map`, modelled as an association list

JS `Map` iterates in insertion order; `set` on an existing key updates the
value in place, `set` on a fresh key appends.  `aget`/`aset` below reproduce
exactly this on a `List (String × α)`. -/

/-- First-match lookup, as JS `Map.get`. -/
def aget {α : Type} (k : String) : List (String × α) → Option α
  | [] => none
  | e :: t => if e.1 = k then some e.2 else aget k t

/-- Update-in-place-or-append, as JS `Map.set`. -/
def aset {α : Type} (k : String) (v : α) : List (String × α) → List (String × α)
  | [] => [(k, v)]
  | e :: t => if e.1 = k then (k, v) :: t else e :: aset k v t

/-- The keys of an association list, in order. -/
def akeys {α : Type} (m : List (String × α)) : List String := m.map (·.1)

/-! ## The reporting engine -/

/-- The per-batch accumulator (ECENApp.jsx lines 162-169). -/
structure BatchStat where
  batch : Purchase
  purchasedQty : ℚ
  unitCost : ℚ
  soldQty : ℚ
  salesRevenue : ℚ
  expensesTotal : ℚ
deriving DecidableEq, Repr

/-- A row of `perBatch` (ECENApp.jsx lines 200-213). -/
structure PerBatchRow where
  batchId : String
  batch : Purchase
  purchased : ℚ
  sold : ℚ
  stock : ℚ
  stockCost : ℚ
  unitCost : ℚ
  expensesTotal : ℚ
  revenue : ℚ
  cogs : ℚ
  profit : ℚ
  overSold : Bool
deriving DecidableEq, Repr

/-- A row of `customerDebts` (ECENApp.jsx lines 231-236). -/
structure CustomerDebt where
  customer : String
  invoiced : ℚ
  paid : ℚ
  balance : ℚ
deriving DecidableEq, Repr

/-- The totals rollup (ECENApp.jsx lines 238-247). -/
@[ext]
structure Totals where
  revenue : ℚ
  cogs : ℚ
  expensesFull : ℚ
  profit : ℚ
  paidTotal : ℚ
  unpaidTotal : ℚ
  stockQty : ℚ
  stockCost : ℚ
deriving DecidableEq, Repr

/-- The engine result. -/
@[ext]
structure Report where
  perBatch : List PerBatchRow
  customerDebts : List CustomerDebt
  totals : Totals
deriving DecidableEq, Repr

/-- The fresh accumulator for a purchase (ECENApp.jsx lines 162-169). -/
def freshStat (pur : Purchase) : BatchStat :=
  { batch := pur
    purchasedQty := parseNum pur.qty
    unitCost := parseNum pur.unitPrice
    soldQty := 0
    salesRevenue := 0
    expensesTotal := 0 }

/-- One purchase folded into the batch map (ECENApp.jsx lines 160-170);
`null` entries are skipped by the guard. -/
def initStep (m : List (String × BatchStat)) (op : Option Purchase) :
    List (String × BatchStat) :=
  match op with
  | none => m
  | some pur => aset pur.id (freshStat pur) m

/-- The in-place mutation a resolved sale performs on its accumulator
(ECENApp.jsx lines 176-179). -/
def bumpSale (s : Sale) (st : BatchStat) : BatchStat :=
  { st with
    soldQty := st.soldQty + parseNum s.qty
    salesRevenue := st.salesRevenue + parseNum s.qty * parseNum s.unitPrice }

/-- The in-place mutation a resolved expense performs on its accumulator
(ECENApp.jsx line 186). -/
def bumpExp (e : Expense) (st : BatchStat) : BatchStat :=
  { st with expensesTotal := st.expensesTotal + parseNum e.amount }

/-- One sale folded into the batch statistics (ECENApp.jsx lines 172-180):
a sale whose `batchId` misses the map is skipped. -/
def saleStep (m : List (String × BatchStat)) (os : Option Sale) :
    List (String × BatchStat) :=
  match os with
  | none => m
  | some s =>
    match aget s.batchId m with
    | none => m
    | some st => aset s.batchId (bumpSale s st) m

/-- One expense folded into the batch statistics (ECENApp.jsx lines 182-187). -/
def expenseStep (m : List (String × BatchStat)) (oe : Option Expense) :
    List (String × BatchStat) :=
  match oe with
  | none => m
  | some e =>
    match aget e.batchId m with
    | none => m
    | some st => aset e.batchId (bumpExp e st) m

/-- Derivation of one `perBatch` row from an accumulator entry
(ECENApp.jsx lines 190-213). -/
def mkPerBatchRow (batchId : String) (st : BatchStat) : PerBatchRow :=
  let purchased := st.purchasedQty
  let sold := st.soldQty
  let stock := max 0 (purchased - sold)
  let revenue := st.salesRevenue
  let cogs := st.unitCost * sold
  let expensesFull := st.expensesTotal
  let profit := revenue - cogs - expensesFull
  let stockCost := stock * st.unitCost
  { batchId := batchId
    batch := st.batch
    purchased := purchased
    sold := sold
    stock := stock
    stockCost := stockCost
    unitCost := st.unitCost
    expensesTotal := expensesFull
    revenue := revenue
    cogs := cogs
    profit := profit
    overSold := decide (purchased < sold) }

/-- The customer key of a sale entry (ECENApp.jsx line 218): a `null` entry or
a blank customer collapses to the sentinel. -/
def saleCust (os : Option Sale) : String :=
  match os with
  | some s => if s.customer ≠ "" then s.customer else "(noname)"
  | none => "(noname)"

/-- The invoiced amount of a sale entry (ECENApp.jsx line 219): a `null` entry
contributes `parseNum undefined * parseNum undefined = 0`. -/
def saleAmt (os : Option Sale) : ℚ :=
  match os with
  | some s => parseNum s.qty * parseNum s.unitPrice
  | none => 0

/-- The customer key of a payment entry (ECENApp.jsx line 225). -/
def payCust (op : Option Payment) : String :=
  match op with
  | some p => if p.customer ≠ "" then p.customer else "(noname)"
  | none => "(noname)"

/-- The paid amount of a payment entry (ECENApp.jsx line 226). -/
def payAmt (op : Option Payment) : ℚ :=
  match op with
  | some p => parseNum p.amount
  | none => 0

/-- One sale folded into the customer map (ECENApp.jsx lines 217-223).  The
value is the pair (invoiced, paid). -/
def custSaleStep (m : List (String × (ℚ × ℚ))) (os : Option Sale) :
    List (String × (ℚ × ℚ)) :=
  let c := saleCust os
  let prev := (aget c m).getD (0, 0)
  aset c (prev.1 + saleAmt os, prev.2) m

/-- One payment folded into the customer map (ECENApp.jsx lines 224-230). -/
def custPayStep (m : List (String × (ℚ × ℚ))) (op : Option Payment) :
    List (String × (ℚ × ℚ)) :=
  let c := payCust op
  let prev := (aget c m).getD (0, 0)
  aset c (prev.1, prev.2 + payAmt op) m

/-- A `customerDebts` row (ECENApp.jsx lines 231-236). -/
def mkDebtRow (customer : String) (v : ℚ × ℚ) : CustomerDebt :=
  { customer := customer, invoiced := v.1, paid := v.2, balance := v.1 - v.2 }

/-- Source (ECENApp.jsx lines 152-250); the earlier variant in
src/unnamed/part_000 lines 66-162 is identical on this fragment except that
it lacks the per-element null guards.  Missing / not-an-array collections
normalize to empty; per-batch statistics accumulate over a JS `Map`; customer
debts accumulate over a second `Map`; totals reduce over the derived rows. -/
def calculateReports (data : Snapshot) : Report :=
  let purchases := data.purchases.getD []
  let sales := data.sales.getD []
  let expenses := data.expenses.getD []
  let payments := data.payments.getD []
  let stats0 := purchases.foldl initStep []
  let stats1 := sales.foldl saleStep stats0
  let stats2 := expenses.foldl expenseStep stats1
  let perBatch := stats2.map (fun e => mkPerBatchRow e.1 e.2)
  let byCust0 := sales.foldl custSaleStep []
  let byCust := payments.foldl custPayStep byCust0
  let customerDebts := byCust.map (fun e => mkDebtRow e.1 e.2)
  let totals : Totals :=
    { revenue := perBatch.foldl (fun a b => a + b.revenue) 0
      cogs := perBatch.foldl (fun a b => a + b.cogs) 0
      expensesFull := perBatch.foldl (fun a b => a + b.expensesTotal) 0
      profit := perBatch.foldl (fun a b => a + b.profit) 0
      paidTotal := customerDebts.foldl (fun a b => a + b.paid) 0
      unpaidTotal := customerDebts.foldl (fun a b => a + max 0 b.balance) 0
      stockQty := perBatch.foldl (fun a b => a + b.stock) 0
      stockCost := perBatch.foldl (fun a b => a + b.stockCost) 0 }
  { perBatch := perBatch, customerDebts := customerDebts, totals := totals }

/-! ## Specification views

The definitions below do not belong to the source; they are the closed-form
views of the accumulators that the theorems relate the source folds to. -/

/-- The purchase ids of a snapshot collection (`null` entries carry none). -/
def idsOf (l : List (Option Purchase)) : List String :=
  (l.filterMap id).map (·.id)

/-- Total quantity sold against batch `k` in a sale collection. -/
def soldSum (k : String) (l : List (Option Sale)) : ℚ :=
  (((l.filterMap id).filter (fun s => s.batchId = k)).map (fun s => parseNum s.qty)).sum

/-- Total revenue of batch `k` in a sale collection. -/
def revSum (k : String) (l : List (Option Sale)) : ℚ :=
  (((l.filterMap id).filter (fun s => s.batchId = k)).map
    (fun s => parseNum s.qty * parseNum s.unitPrice)).sum

/-- Total expenses charged against batch `k` in an expense collection. -/
def expSum (k : String) (l : List (Option Expense)) : ℚ :=
  (((l.filterMap id).filter (fun e => e.batchId = k)).map (fun e => parseNum e.amount)).sum

/-- The effect of a whole sale collection on the accumulator of batch `k`. -/
def addSales (k : String) (l : List (Option Sale)) (st : BatchStat) : BatchStat :=
  { st with
    soldQty := st.soldQty + soldSum k l
    salesRevenue := st.salesRevenue + revSum k l }

/-- The effect of a whole expense collection on the accumulator of batch `k`. -/
def addExps (k : String) (l : List (Option Expense)) (st : BatchStat) : BatchStat :=
  { st with expensesTotal := st.expensesTotal + expSum k l }

/-- The effect of one sale entry on the accumulator of batch `k`. -/
def saleBumpAt (os : Option Sale) (k : String) (st : BatchStat) : BatchStat :=
  match os with
  | none => st
  | some s => if s.batchId = k then bumpSale s st else st

/-- The effect of one expense entry on the accumulator of batch `k`. -/
def expBumpAt (oe : Option Expense) (k : String) (st : BatchStat) : BatchStat :=
  match oe with
  | none => st
  | some e => if e.batchId = k then bumpExp e st else st

/-- The fully accumulated statistics of the batch created by purchase `p`. -/
def statOf (p : Purchase) (salesL : List (Option Sale)) (expL : List (Option Expense)) :
    BatchStat :=
  addExps p.id expL (addSales p.id salesL (freshStat p))

/-- Total invoiced amount of customer key `c` in a sale collection (the sale
collection is traversed whole: `null` entries key to the sentinel with
amount zero). -/
def invSum (c : String) (l : List (Option Sale)) : ℚ :=
  ((l.filter (fun os => saleCust os = c)).map saleAmt).sum

/-- Total paid amount of customer key `c` in a payment collection. -/
def paySum (c : String) (l : List (Option Payment)) : ℚ :=
  ((l.filter (fun op => payCust op = c)).map payAmt).sum

/-- The accumulated (invoiced, paid) value of a customer key, absent keys
reading as `(0, 0)`. -/
def custVal (c : String) (m : List (String × (ℚ × ℚ))) : ℚ × ℚ :=
  (aget c m).getD (0, 0)

/-- The invoiced total a report states for customer key `c` (zero when the
customer has no row). -/
def invoicedOf (r : Report) (c : String) : ℚ :=
  ((r.customerDebts.filter (fun d => d.customer = c)).map (·.invoiced)).sum

/-- The paid total a report states for customer key `c`. -/
def paidOf (r : Report) (c : String) : ℚ :=
  ((r.customerDebts.filter (fun d => d.customer = c)).map (·.paid)).sum

/-- The customer-debt row of customer key `c`, when present. -/
def debtLookup (r : Report) (c : String) : Option CustomerDebt :=
  r.customerDebts.find? (fun d => d.customer = c)

/-- Sum of accumulated sale revenue over a batch map. -/
def sumRev (m : List (String × BatchStat)) : ℚ :=
  (m.map (fun e => e.2.salesRevenue)).sum

/-- Sum of accumulated invoiced amounts over a customer map. -/
def sumInv (m : List (String × (ℚ × ℚ))) : ℚ :=
  (m.map (fun e => e.2.1)).sum

/-- The boundary normalization of a snapshot: every missing/not-an-array
collection replaced by the empty collection. -/
def snapNormalized (s : Snapshot) : Snapshot :=
  { purchases := some (s.purchases.getD [])
    sales := some (s.sales.getD [])
    expenses := some (s.expenses.getD [])
    payments := some (s.payments.getD []) }

/-! ## Concrete snapshots used by the witnesses and counterexamples -/

/-- The purchase of the source self-test (ECENApp.jsx lines 855-860). -/
def demoPurchase : Purchase :=
  { id := "b1", date := some "2024-01-01", qty := .num 10, unitPrice := .num 5
    batchSeq := none, batchName := none }

/-- The snapshot of the source self-test (ECENApp.jsx lines 855-860). -/
def demoSnap : Snapshot :=
  { purchases := some [some demoPurchase]
    sales := some [some { batchId := "b1", customer := "Ali", qty := .num 4, unitPrice := .num 8 }]
    expenses := some [some { batchId := "b1", amount := .num 20 }]
    payments := some [some { customer := "Ali", amount := .num 10 }] }

/-- The `perBatch` row the self-test snapshot produces. -/
def demoRow : PerBatchRow :=
  { batchId := "b1", batch := demoPurchase, purchased := 10, sold := 4, stock := 6
    stockCost := 30, unitCost := 5, expensesTotal := 20, revenue := 32, cogs := 20
    profit := -8, overSold := false }

/-- The customer-debt row the self-test snapshot produces. -/
def demoDebt : CustomerDebt :=
  { customer := "Ali", invoiced := 32, paid := 10, balance := 22 }

/-- Empty purchases with a dangling sale and a payment: payments and the
dangling sale still reach the customer ledger. -/
def c1Snap : Snapshot :=
  { purchases := some []
    sales := some [some { batchId := "b1", customer := "Ali", qty := .num 4, unitPrice := .num 8 }]
    expenses := some []
    payments := some [some { customer := "Ali", amount := .num 10 }] }

/-- A dangling sale record (batch id matching no purchase). -/
def danglingSale : Sale :=
  { batchId := "nope", customer := "Zed", qty := .num 2, unitPrice := .num 3 }

/-- A dangling expense record. -/
def danglingExpense : Expense := { batchId := "nope", amount := .num 7 }

/-- The self-test snapshot with a dangling sale inserted. -/
def c2SaleSnap : Snapshot :=
  { demoSnap with
    sales := some ([] ++ some danglingSale ::
      [some { batchId := "b1", customer := "Ali", qty := .num 4, unitPrice := .num 8 }]) }

/-- The self-test snapshot with a dangling expense inserted. -/
def c2ExpSnap : Snapshot :=
  { demoSnap with
    expenses := some ([] ++ some danglingExpense ::
      [some { batchId := "b1", amount := .num 20 }]) }

/-- Two purchase records sharing one id: the second silently overwrites the
first in the batch map. -/
def dupA : Purchase :=
  { id := "a", date := none, qty := .num 1, unitPrice := .num 1
    batchSeq := none, batchName := none }

/-- The other record with the duplicated id. -/
def dupB : Purchase :=
  { id := "a", date := none, qty := .num 2, unitPrice := .num 3
    batchSeq := none, batchName := none }

/-- Duplicate-id snapshot, first ordering. -/
def c9SnapA : Snapshot :=
  { purchases := some [some dupA, some dupB], sales := some [], expenses := some []
    payments := some [] }

/-- Duplicate-id snapshot, the purchases permuted. -/
def c9SnapB : Snapshot :=
  { purchases := some [some dupB, some dupA], sales := some [], expenses := some []
    payments := some [] }

/-- A second purchase with a distinct id, for the order-independence witness. -/
def demoPurchase2 : Purchase :=
  { id := "b2", date := some "2024-02-01", qty := .num 3, unitPrice := .num 7
    batchSeq := none, batchName := none }

/-- Two-batch snapshot, first ordering. -/
def c9WitA : Snapshot :=
  { purchases := some [some demoPurchase, some demoPurchase2]
    sales := some
      [some { batchId := "b1", customer := "Ali", qty := .num 4, unitPrice := .num 8 },
       some { batchId := "b2", customer := "Vera", qty := .num 1, unitPrice := .num 9 }]
    expenses := some [some { batchId := "b2", amount := .num 2 }]
    payments := some [some { customer := "Ali", amount := .num 10 }] }

/-- The same snapshot with purchases and sales permuted. -/
def c9WitB : Snapshot :=
  { purchases := some [some demoPurchase2, some demoPurchase]
    sales := some
      [some { batchId := "b2", customer := "Vera", qty := .num 1, unitPrice := .num 9 },
       some { batchId := "b1", customer := "Ali", qty := .num 4, unitPrice := .num 8 }]
    expenses := some [some { batchId := "b2", amount := .num 2 }]
    payments := some [some { customer := "Ali", amount := .num 10 }] }

/-! ## Association-list lemmas -/

theorem aget_aset {α : Type} (k q : String) (v : α) (m : List (String × α)) :
    aget q (aset k v m) = if k = q then some v else aget q m := by
  induction m with
  | nil => simp [aget, aset]
  | cons e t ih =>
    simp only [aset]
    by_cases hk : e.1 = k
    · rw [if_pos hk]
      by_cases hq : k = q
      · subst hq
        simp [aget]
      · have he : e.1 ≠ q := by rw [hk]; exact hq
        simp [aget, hq, he]
    · rw [if_neg hk]
      by_cases he : e.1 = q
      · have hkq : k ≠ q := fun h => hk (h ▸ he)
        simp [aget, he, hkq]
      · simp [aget, he, ih]

theorem mem_akeys_cons {α : Type} (e : String × α) (t : List (String × α)) (q : String) :
    q ∈ akeys (e :: t) ↔ e.1 = q ∨ q ∈ akeys t := by
  simp [akeys, eq_comm]

theorem aget_eq_none_iff {α : Type} (k : String) (m : List (String × α)) :
    aget k m = none ↔ k ∉ akeys m := by
  induction m with
  | nil => simp [aget, akeys]
  | cons e t ih =>
    by_cases h : e.1 = k
    · simp only [aget, if_pos h]
      constructor
      · intro hh
        exact Option.noConfusion hh
      · intro hh
        exact absurd ((mem_akeys_cons e t k).mpr (Or.inl h)) hh
    · simp only [aget, if_neg h, ih, mem_akeys_cons]
      constructor
      · intro hh hc
        rcases hc with hc | hc
        · exact h hc
        · exact hh hc
      · intro hh hc
        exact hh (Or.inr hc)

theorem aget_isSome_iff {α : Type} (k : String) (m : List (String × α)) :
    (aget k m).isSome = true ↔ k ∈ akeys m := by
  rcases h : aget k m with _ | v
  · simpa using (aget_eq_none_iff k m).mp h
  · simp only [Option.isSome_some, true_iff]
    by_contra hmem
    rw [(aget_eq_none_iff k m).mpr hmem] at h
    exact Option.noConfusion h

theorem mem_akeys_aset {α : Type} (k q : String) (v : α) (m : List (String × α)) :
    q ∈ akeys (aset k v m) ↔ q ∈ akeys m ∨ q = k := by
  induction m with
  | nil => simp [aset, akeys, eq_comm]
  | cons e t ih =>
    by_cases h : e.1 = k
    · subst h
      simp [aset, akeys, eq_comm]
      tauto
    · simp only [aset, h, if_false, mem_akeys_cons, ih]
      tauto

theorem akeys_aset_of_mem {α : Type} {k : String} (v : α) {m : List (String × α)}
    (h : k ∈ akeys m) : akeys (aset k v m) = akeys m := by
  induction m with
  | nil => simp [akeys] at h
  | cons e t ih =>
    by_cases he : e.1 = k
    · simp only [aset, if_pos he, akeys, List.map_cons]
      rw [he]
    · have ht : k ∈ akeys t := by
        rcases (mem_akeys_cons e t k).mp h with h1 | h1
        · exact absurd h1 he
        · exact h1
      have ihh := ih ht
      simp only [aset, if_neg he, akeys, List.map_cons]
      simp only [akeys] at ihh
      rw [ihh]

theorem aset_eq_append {α : Type} {k : String} (v : α) {m : List (String × α)}
    (h : k ∉ akeys m) : aset k v m = m ++ [(k, v)] := by
  induction m with
  | nil => simp [aset]
  | cons e t ih =>
    have he : e.1 ≠ k := fun hh => h ((mem_akeys_cons e t k).mpr (Or.inl hh))
    have ht : k ∉ akeys t := fun hh => h ((mem_akeys_cons e t k).mpr (Or.inr hh))
    simp [aset, he, ih ht]

theorem nodup_akeys_aset {α : Type} (k : String) (v : α) {m : List (String × α)}
    (h : (akeys m).Nodup) : (akeys (aset k v m)).Nodup := by
  by_cases hk : k ∈ akeys m
  · rwa [akeys_aset_of_mem v hk]
  · rw [aset_eq_append v hk]
    simp only [akeys, List.map_append, List.map_cons, List.map_nil]
    rw [List.nodup_append]
    refine ⟨h, List.nodup_singleton k, ?_⟩
    intro a ha hb
    rw [List.mem_singleton] at hb
    subst hb
    exact hk ha

theorem alist_eq_map_akeys {α : Type} (d : α) {m : List (String × α)}
    (h : (akeys m).Nodup) :
    m = (akeys m).map (fun k => (k, (aget k m).getD d)) := by
  induction m with
  | nil => simp [akeys]
  | cons e t ih =>
    have hk : e.1 ∉ akeys t ∧ (akeys t).Nodup := by
      simpa [akeys, List.nodup_cons] using h
    have h1 : aget e.1 (e :: t) = some e.2 := by simp [aget]
    have h2 : (akeys t).map (fun k => (k, (aget k (e :: t)).getD d)) =
        (akeys t).map (fun k => (k, (aget k t).getD d)) := by
      refine List.map_congr_left ?_
      intro q hq
      have hne : e.1 ≠ q := fun hh => hk.1 (hh ▸ hq)
      simp [aget, hne]
    have h3 : akeys (e :: t) = e.1 :: akeys t := by simp [akeys]
    rw [h3, List.map_cons, h1, h2, ← ih hk.2]
    simp

/-! ## Keys of the batch map through the three passes -/

theorem mem_akeys_of_aget {α : Type} {k : String} {v : α} {m : List (String × α)}
    (h : aget k m = some v) : k ∈ akeys m :=
  (aget_isSome_iff k m).mp (by rw [h]; rfl)

theorem saleStep_akeys (m : List (String × BatchStat)) (os : Option Sale) :
    akeys (saleStep m os) = akeys m := by
  cases os with
  | none => rfl
  | some s =>
    simp only [saleStep]
    rcases h : aget s.batchId m with _ | st
    · rfl
    · exact akeys_aset_of_mem _ (mem_akeys_of_aget h)

theorem expenseStep_akeys (m : List (String × BatchStat)) (oe : Option Expense) :
    akeys (expenseStep m oe) = akeys m := by
  cases oe with
  | none => rfl
  | some e =>
    simp only [expenseStep]
    rcases h : aget e.batchId m with _ | st
    · rfl
    · exact akeys_aset_of_mem _ (mem_akeys_of_aget h)

theorem foldl_saleStep_akeys (l : List (Option Sale)) (m : List (String × BatchStat)) :
    akeys (l.foldl saleStep m) = akeys m := by
  induction l generalizing m with
  | nil => rfl
  | cons os t ih => rw [List.foldl_cons, ih, saleStep_akeys]

theorem foldl_expenseStep_akeys (l : List (Option Expense)) (m : List (String × BatchStat)) :
    akeys (l.foldl expenseStep m) = akeys m := by
  induction l generalizing m with
  | nil => rfl
  | cons oe t ih => rw [List.foldl_cons, ih, expenseStep_akeys]

theorem idsOf_cons_none (t : List (Option Purchase)) : idsOf (none :: t) = idsOf t := by
  simp [idsOf, List.filterMap_cons]

theorem idsOf_cons_some (p : Purchase) (t : List (Option Purchase)) :
    idsOf (some p :: t) = p.id :: idsOf t := by
  simp [idsOf, List.filterMap_cons]

theorem mem_akeys_foldl_initStep (l : List (Option Purchase))
    (m : List (String × BatchStat)) (k : String) :
    k ∈ akeys (l.foldl initStep m) ↔ k ∈ akeys m ∨ k ∈ idsOf l := by
  induction l generalizing m with
  | nil => simp [idsOf]
  | cons op t ih =>
    cases op with
    | none =>
      rw [List.foldl_cons, idsOf_cons_none]
      exact ih m
    | some p =>
      rw [List.foldl_cons, idsOf_cons_some]
      simp only [initStep]
      rw [ih (aset p.id (freshStat p) m)]
      rw [mem_akeys_aset]
      simp only [List.mem_cons]
      tauto

/-! ## Pointwise behaviour of the sale and expense passes -/

theorem aget_saleStep (m : List (String × BatchStat)) (os : Option Sale) (k : String) :
    aget k (saleStep m os) = (aget k m).map (saleBumpAt os k) := by
  cases os with
  | none =>
    simp only [saleStep]
    cases aget k m <;> simp [saleBumpAt]
  | some s =>
    simp only [saleStep]
    rcases h : aget s.batchId m with _ | st
    · by_cases hb : s.batchId = k
      · subst hb
        rw [h]
        rfl
      · cases aget k m <;> simp [saleBumpAt, hb]
    · rw [aget_aset]
      by_cases hb : s.batchId = k
      · subst hb
        rw [if_pos rfl, h]
        simp [saleBumpAt]
      · rw [if_neg hb]
        cases aget k m <;> simp [saleBumpAt, hb]

theorem aget_expenseStep (m : List (String × BatchStat)) (oe : Option Expense) (k : String) :
    aget k (expenseStep m oe) = (aget k m).map (expBumpAt oe k) := by
  cases oe with
  | none =>
    simp only [expenseStep]
    cases aget k m <;> simp [expBumpAt]
  | some e =>
    simp only [expenseStep]
    rcases h : aget e.batchId m with _ | st
    · by_cases hb : e.batchId = k
      · subst hb
        rw [h]
        rfl
      · cases aget k m <;> simp [expBumpAt, hb]
    · rw [aget_aset]
      by_cases hb : e.batchId = k
      · subst hb
        rw [if_pos rfl, h]
        simp [expBumpAt]
      · rw [if_neg hb]
        cases aget k m <;> simp [expBumpAt, hb]

theorem addSales_nil (k : String) (st : BatchStat) : addSales k [] st = st := by
  simp [addSales, soldSum, revSum]

theorem addExps_nil (k : String) (st : BatchStat) : addExps k [] st = st := by
  simp [addExps, expSum]

theorem addSales_cons (k : String) (os : Option Sale) (t : List (Option Sale))
    (st : BatchStat) : addSales k (os :: t) st = addSales k t (saleBumpAt os k st) := by
  cases os with
  | none => simp [addSales, saleBumpAt, soldSum, revSum, List.filterMap_cons]
  | some s =>
    by_cases hb : s.batchId = k
    · simp [addSales, saleBumpAt, soldSum, revSum, bumpSale, List.filterMap_cons, hb,
        List.filter_cons]
      constructor <;> ring
    · simp [addSales, saleBumpAt, soldSum, revSum, List.filterMap_cons, hb, List.filter_cons]

theorem addExps_cons (k : String) (oe : Option Expense) (t : List (Option Expense))
    (st : BatchStat) : addExps k (oe :: t) st = addExps k t (expBumpAt oe k st) := by
  cases oe with
  | none => simp [addExps, expBumpAt, expSum, List.filterMap_cons]
  | some e =>
    by_cases hb : e.batchId = k
    · simp [addExps, expBumpAt, expSum, bumpExp, List.filterMap_cons, hb, List.filter_cons]
      ring
    · simp [addExps, expBumpAt, expSum, List.filterMap_cons, hb, List.filter_cons]

theorem aget_foldl_saleStep (l : List (Option Sale)) (m : List (String × BatchStat))
    (k : String) :
    aget k (l.foldl saleStep m) = (aget k m).map (addSales k l) := by
  induction l generalizing m with
  | nil =>
    simp only [List.foldl_nil]
    cases aget k m <;> simp [addSales_nil]
  | cons os t ih =>
    rw [List.foldl_cons, ih, aget_saleStep]
    cases aget k m with
    | none => rfl
    | some st => simp [addSales_cons]

theorem aget_foldl_expenseStep (l : List (Option Expense)) (m : List (String × BatchStat))
    (k : String) :
    aget k (l.foldl expenseStep m) = (aget k m).map (addExps k l) := by
  induction l generalizing m with
  | nil =>
    simp only [List.foldl_nil]
    cases aget k m <;> simp [addExps_nil]
  | cons oe t ih =>
    rw [List.foldl_cons, ih, aget_expenseStep]
    cases aget k m with
    | none => rfl
    | some st => simp [addExps_cons]

/-! ## Structure of the batch map under distinct purchase ids -/

theorem foldl_initStep_rep (l : List (Option Purchase)) :
    ∀ (m : List (String × BatchStat)), (idsOf l).Nodup →
      (∀ k ∈ akeys m, k ∉ idsOf l) →
      l.foldl initStep m = m ++ (l.filterMap id).map (fun p => (p.id, freshStat p)) := by
  induction l with
  | nil => simp
  | cons op t ih =>
    intro m hnd hdis
    cases op with
    | none =>
      rw [idsOf_cons_none] at hnd hdis
      simp only [List.foldl_cons, List.filterMap_cons]
      exact ih m hnd hdis
    | some p =>
      rw [idsOf_cons_some] at hnd hdis
      rw [List.nodup_cons] at hnd
      have hpm : p.id ∉ akeys m := fun hmem =>
        hdis p.id hmem (List.mem_cons_self _ _)
      simp only [List.foldl_cons, List.filterMap_cons, initStep]
      rw [aset_eq_append _ hpm]
      rw [ih (m ++ [(p.id, freshStat p)]) hnd.2 ?_]
      · simp
      · intro k hk
        simp only [akeys, List.map_append, List.mem_append, List.map_cons, List.map_nil,
          List.mem_singleton] at hk
        rcases hk with hk | hk
        · exact fun hmem => hdis k hk (List.mem_cons_of_mem _ hmem)
        · subst hk
          exact hnd.1

theorem aset_bump_eq_map {α : Type} (f : α → α) {m : List (String × α)}
    (h : (akeys m).Nodup) {k : String} {st : α} (hget : aget k m = some st) :
    aset k (f st) m = m.map (fun e => (e.1, if k = e.1 then f e.2 else e.2)) := by
  induction m with
  | nil => exact absurd hget (by simp [aget])
  | cons e t ih =>
    simp only [akeys, List.map_cons, List.nodup_cons] at h
    by_cases he : e.1 = k
    · have hst : st = e.2 := by
        simp [aget, he] at hget
        exact hget.symm
      subst hst
      simp only [aset, if_pos he, List.map_cons, if_pos he.symm]
      refine congrArg₂ _ (by rw [he]) ?_
      have : ∀ q ∈ t, (fun e : String × α => (e.1, if k = e.1 then f e.2 else e.2)) q = q := by
        intro q hq
        have : k ≠ q.1 := by
          rw [← he]
          exact fun hh => h.1 (hh ▸ (List.mem_map_of_mem (·.1) hq))
        simp [this]
      rw [List.map_congr_left this]
      exact (List.map_id' t).symm
    · have hget2 : aget k t = some st := by
        simpa [aget, he] using hget
      simp only [aset, if_neg he, List.map_cons]
      have hne : ¬k = e.1 := fun hh => he hh.symm
      rw [if_neg hne]
      exact congrArg₂ _ rfl (ih h.2 hget2)

theorem saleStep_eq_map {m : List (String × BatchStat)} (h : (akeys m).Nodup)
    (os : Option Sale) :
    saleStep m os = m.map (fun e => (e.1, saleBumpAt os e.1 e.2)) := by
  cases os with
  | none =>
    have : ∀ e ∈ m, (fun e : String × BatchStat => (e.1, saleBumpAt none e.1 e.2)) e = e := by
      intro e _
      simp [saleBumpAt]
    rw [List.map_congr_left this]
    exact (List.map_id' m).symm
  | some s =>
    rcases hget : aget s.batchId m with _ | st
    · have hstep : saleStep m (some s) = m := by simp [saleStep, hget]
      have hmem : s.batchId ∉ akeys m := (aget_eq_none_iff _ _).mp hget
      have hid : ∀ e ∈ m,
          (fun e : String × BatchStat => (e.1, saleBumpAt (some s) e.1 e.2)) e = e := by
        intro e hem
        have : s.batchId ≠ e.1 := fun hh => hmem (hh ▸ (List.mem_map_of_mem (·.1) hem))
        simp [saleBumpAt, this]
      rw [hstep, List.map_congr_left hid]
      exact (List.map_id' m).symm
    · have hstep : saleStep m (some s) = aset s.batchId (bumpSale s st) m := by
        simp [saleStep, hget]
      rw [hstep, aset_bump_eq_map (bumpSale s) h hget]
      refine List.map_congr_left ?_
      intro e _
      simp only [saleBumpAt]

theorem expenseStep_eq_map {m : List (String × BatchStat)} (h : (akeys m).Nodup)
    (oe : Option Expense) :
    expenseStep m oe = m.map (fun e => (e.1, expBumpAt oe e.1 e.2)) := by
  cases oe with
  | none =>
    have : ∀ e ∈ m, (fun e : String × BatchStat => (e.1, expBumpAt none e.1 e.2)) e = e := by
      intro e _
      simp [expBumpAt]
    rw [List.map_congr_left this]
    exact (List.map_id' m).symm
  | some x =>
    rcases hget : aget x.batchId m with _ | st
    · have hstep : expenseStep m (some x) = m := by simp [expenseStep, hget]
      have hmem : x.batchId ∉ akeys m := (aget_eq_none_iff _ _).mp hget
      have hid : ∀ e ∈ m,
          (fun e : String × BatchStat => (e.1, expBumpAt (some x) e.1 e.2)) e = e := by
        intro e hem
        have : x.batchId ≠ e.1 := fun hh => hmem (hh ▸ (List.mem_map_of_mem (·.1) hem))
        simp [expBumpAt, this]
      rw [hstep, List.map_congr_left hid]
      exact (List.map_id' m).symm
    · have hstep : expenseStep m (some x) = aset x.batchId (bumpExp x st) m := by
        simp [expenseStep, hget]
      rw [hstep, aset_bump_eq_map (bumpExp x) h hget]
      refine List.map_congr_left ?_
      intro e _
      simp only [expBumpAt]

theorem akeys_map_snd {α β : Type} (m : List (String × α)) (g : String × α → β) :
    akeys (m.map (fun e => (e.1, g e))) = akeys m := by
  simp [akeys, List.map_map]

theorem foldl_saleStep_eq_map (l : List (Option Sale)) :
    ∀ (m : List (String × BatchStat)), (akeys m).Nodup →
      l.foldl saleStep m = m.map (fun e => (e.1, addSales e.1 l e.2)) := by
  induction l with
  | nil =>
    intro m _
    simp only [List.foldl_nil]
    have : ∀ e ∈ m, (fun e : String × BatchStat => (e.1, addSales e.1 [] e.2)) e = e := by
      intro e _
      simp [addSales_nil]
    rw [List.map_congr_left this]
    exact (List.map_id' m).symm
  | cons os t ih =>
    intro m h
    rw [List.foldl_cons, saleStep_eq_map h os]
    have h2 : (akeys (m.map (fun e => (e.1, saleBumpAt os e.1 e.2)))).Nodup := by
      rw [akeys_map_snd]
      exact h
    rw [ih _ h2, List.map_map]
    refine List.map_congr_left ?_
    intro e _
    simp [Function.comp, addSales_cons]

theorem foldl_expenseStep_eq_map (l : List (Option Expense)) :
    ∀ (m : List (String × BatchStat)), (akeys m).Nodup →
      l.foldl expenseStep m = m.map (fun e => (e.1, addExps e.1 l e.2)) := by
  induction l with
  | nil =>
    intro m _
    simp only [List.foldl_nil]
    have : ∀ e ∈ m, (fun e : String × BatchStat => (e.1, addExps e.1 [] e.2)) e = e := by
      intro e _
      simp [addExps_nil]
    rw [List.map_congr_left this]
    exact (List.map_id' m).symm
  | cons oe t ih =>
    intro m h
    rw [List.foldl_cons, expenseStep_eq_map h oe]
    have h2 : (akeys (m.map (fun e => (e.1, expBumpAt oe e.1 e.2)))).Nodup := by
      rw [akeys_map_snd]
      exact h
    rw [ih _ h2, List.map_map]
    refine List.map_congr_left ?_
    intro e _
    simp [Function.comp, addExps_cons]

/-! ## The customer map -/

theorem invSum_nil (c : String) : invSum c [] = 0 := rfl

theorem invSum_cons (c : String) (os : Option Sale) (t : List (Option Sale)) :
    invSum c (os :: t) = (if saleCust os = c then saleAmt os else 0) + invSum c t := by
  by_cases h : saleCust os = c <;> simp [invSum, List.filter_cons, h]

theorem paySum_cons (c : String) (op : Option Payment) (t : List (Option Payment)) :
    paySum c (op :: t) = (if payCust op = c then payAmt op else 0) + paySum c t := by
  by_cases h : payCust op = c <;> simp [paySum, List.filter_cons, h]

theorem custVal_custSaleStep (m : List (String × (ℚ × ℚ))) (os : Option Sale) (c : String) :
    custVal c (custSaleStep m os) =
      if saleCust os = c then ((custVal c m).1 + saleAmt os, (custVal c m).2)
      else custVal c m := by
  simp only [custSaleStep, custVal]
  rw [aget_aset]
  by_cases h : saleCust os = c
  · rw [if_pos h, if_pos h, h]
    rfl
  · rw [if_neg h, if_neg h]

theorem custVal_custPayStep (m : List (String × (ℚ × ℚ))) (op : Option Payment) (c : String) :
    custVal c (custPayStep m op) =
      if payCust op = c then ((custVal c m).1, (custVal c m).2 + payAmt op)
      else custVal c m := by
  simp only [custPayStep, custVal]
  rw [aget_aset]
  by_cases h : payCust op = c
  · rw [if_pos h, if_pos h, h]
    rfl
  · rw [if_neg h, if_neg h]

theorem custVal_foldl_custSaleStep (l : List (Option Sale)) :
    ∀ (m : List (String × (ℚ × ℚ))) (c : String),
      custVal c (l.foldl custSaleStep m) = ((custVal c m).1 + invSum c l, (custVal c m).2) := by
  induction l with
  | nil =>
    intro m c
    simp [invSum_nil]
  | cons os t ih =>
    intro m c
    rw [List.foldl_cons, ih, custVal_custSaleStep, invSum_cons]
    by_cases h : saleCust os = c
    · rw [if_pos h, if_pos h]
      rw [Prod.mk.injEq]
      exact ⟨by ring, rfl⟩
    · rw [if_neg h, if_neg h]
      simp

theorem custVal_foldl_custPayStep (l : List (Option Payment)) :
    ∀ (m : List (String × (ℚ × ℚ))) (c : String),
      custVal c (l.foldl custPayStep m) = ((custVal c m).1, (custVal c m).2 + paySum c l) := by
  induction l with
  | nil =>
    intro m c
    simp [paySum]
  | cons op t ih =>
    intro m c
    rw [List.foldl_cons, ih, custVal_custPayStep, paySum_cons]
    by_cases h : payCust op = c
    · rw [if_pos h, if_pos h]
      rw [Prod.mk.injEq]
      exact ⟨rfl, by ring⟩
    · rw [if_neg h, if_neg h]
      simp

theorem mem_akeys_foldl_custSaleStep (l : List (Option Sale)) :
    ∀ (m : List (String × (ℚ × ℚ))) (q : String),
      q ∈ akeys (l.foldl custSaleStep m) ↔ q ∈ akeys m ∨ q ∈ l.map saleCust := by
  induction l with
  | nil =>
    intro m q
    simp
  | cons os t ih =>
    intro m q
    rw [List.foldl_cons, ih]
    simp only [custSaleStep, mem_akeys_aset, List.map_cons, List.mem_cons]
    tauto

theorem mem_akeys_foldl_custPayStep (l : List (Option Payment)) :
    ∀ (m : List (String × (ℚ × ℚ))) (q : String),
      q ∈ akeys (l.foldl custPayStep m) ↔ q ∈ akeys m ∨ q ∈ l.map payCust := by
  induction l with
  | nil =>
    intro m q
    simp
  | cons op t ih =>
    intro m q
    rw [List.foldl_cons, ih]
    simp only [custPayStep, mem_akeys_aset, List.map_cons, List.mem_cons]
    tauto

theorem nodup_akeys_foldl_custSaleStep (l : List (Option Sale)) :
    ∀ (m : List (String × (ℚ × ℚ))), (akeys m).Nodup →
      (akeys (l.foldl custSaleStep m)).Nodup := by
  induction l with
  | nil => exact fun m h => h
  | cons os t ih =>
    intro m h
    rw [List.foldl_cons]
    exact ih _ (nodup_akeys_aset _ _ h)

theorem nodup_akeys_foldl_custPayStep (l : List (Option Payment)) :
    ∀ (m : List (String × (ℚ × ℚ))), (akeys m).Nodup →
      (akeys (l.foldl custPayStep m)).Nodup := by
  induction l with
  | nil => exact fun m h => h
  | cons op t ih =>
    intro m h
    rw [List.foldl_cons]
    exact ih _ (nodup_akeys_aset _ _ h)

theorem sumInv_custSaleStep (m : List (String × (ℚ × ℚ))) (os : Option Sale) :
    sumInv (custSaleStep m os) = sumInv m + saleAmt os := by
  induction m with
  | nil => simp [custSaleStep, aset, sumInv, aget, custVal]
  | cons e t ih =>
    by_cases he : e.1 = saleCust os
    · have hstep : custSaleStep (e :: t) os =
          (saleCust os, (e.2.1 + saleAmt os, e.2.2)) :: t := by
        simp [custSaleStep, aget, aset, he]
      rw [hstep]
      simp only [sumInv, List.map_cons, List.sum_cons]
      ring
    · have hstep : custSaleStep (e :: t) os = e :: custSaleStep t os := by
        simp [custSaleStep, aget, aset, he]
      rw [hstep]
      simp only [sumInv, List.map_cons, List.sum_cons] at ih ⊢
      rw [ih]
      ring

theorem sumInv_custPayStep (m : List (String × (ℚ × ℚ))) (op : Option Payment) :
    sumInv (custPayStep m op) = sumInv m := by
  induction m with
  | nil => simp [custPayStep, aset, sumInv, aget]
  | cons e t ih =>
    by_cases he : e.1 = payCust op
    · have hstep : custPayStep (e :: t) op =
          (payCust op, (e.2.1, e.2.2 + payAmt op)) :: t := by
        simp [custPayStep, aget, aset, he]
      rw [hstep]
      simp only [sumInv, List.map_cons, List.sum_cons]
    · have hstep : custPayStep (e :: t) op = e :: custPayStep t op := by
        simp [custPayStep, aget, aset, he]
      rw [hstep]
      simp only [sumInv, List.map_cons, List.sum_cons] at ih ⊢
      rw [ih]

theorem sumInv_foldl_custSaleStep (l : List (Option Sale)) :
    ∀ (m : List (String × (ℚ × ℚ))),
      sumInv (l.foldl custSaleStep m) = sumInv m + (l.map saleAmt).sum := by
  induction l with
  | nil =>
    intro m
    simp
  | cons os t ih =>
    intro m
    rw [List.foldl_cons, ih, sumInv_custSaleStep]
    simp only [List.map_cons, List.sum_cons]
    ring

theorem sumInv_foldl_custPayStep (l : List (Option Payment)) :
    ∀ (m : List (String × (ℚ × ℚ))),
      sumInv (l.foldl custPayStep m) = sumInv m := by
  induction l with
  | nil => exact fun m => rfl
  | cons op t ih =>
    intro m
    rw [List.foldl_cons, ih, sumInv_custPayStep]

/-! ## Sums over the maps and the totals rollup -/

theorem foldl_add_eq {β : Type} (f : β → ℚ) (l : List β) :
    ∀ c : ℚ, l.foldl (fun a b => a + f b) c = c + (l.map f).sum := by
  induction l with
  | nil => simp
  | cons b t ih =>
    intro c
    rw [List.foldl_cons, ih]
    simp only [List.map_cons, List.sum_cons]
    ring

theorem sumRev_aset (v : BatchStat) :
    ∀ (m : List (String × BatchStat)) {k : String} {st : BatchStat},
      aget k m = some st →
      sumRev (aset k v m) = sumRev m + v.salesRevenue - st.salesRevenue := by
  intro m
  induction m with
  | nil =>
    intro k st h
    exact absurd h (by simp [aget])
  | cons e t ih =>
    intro k st h
    by_cases he : e.1 = k
    · have hst : st = e.2 := by
        simp [aget, he] at h
        exact h.symm
      subst hst
      simp only [aset, if_pos he, sumRev, List.map_cons, List.sum_cons]
      ring
    · have h2 : aget k t = some st := by simpa [aget, he] using h
      simp only [aset, if_neg he, sumRev, List.map_cons, List.sum_cons]
      have := ih h2
      simp only [sumRev] at this
      rw [this]
      ring

theorem sumRev_saleStep_resolved {m : List (String × BatchStat)} {s : Sale}
    (h : s.batchId ∈ akeys m) :
    sumRev (saleStep m (some s)) = sumRev m + saleAmt (some s) := by
  rcases hget : aget s.batchId m with _ | st
  · exact absurd ((aget_eq_none_iff _ _).mp hget) (by simpa using h)
  · have hstep : saleStep m (some s) = aset s.batchId (bumpSale s st) m := by
      simp [saleStep, hget]
    rw [hstep, sumRev_aset _ m hget]
    simp only [bumpSale, saleAmt]
    ring

theorem sumRev_foldl_saleStep (l : List (Option Sale)) :
    ∀ (m : List (String × BatchStat)),
      (∀ s : Sale, some s ∈ l → s.batchId ∈ akeys m) →
      sumRev (l.foldl saleStep m) = sumRev m + (l.map saleAmt).sum := by
  induction l with
  | nil =>
    intro m _
    simp
  | cons os t ih =>
    intro m hres
    rw [List.foldl_cons]
    have hres2 : ∀ s : Sale, some s ∈ t → s.batchId ∈ akeys (saleStep m os) := by
      intro s hs
      rw [saleStep_akeys]
      exact hres s (List.mem_cons_of_mem _ hs)
    rw [ih _ hres2]
    cases os with
    | none =>
      simp only [saleStep, List.map_cons, List.sum_cons, saleAmt]
      ring
    | some s =>
      rw [sumRev_saleStep_resolved (hres s (List.mem_cons_self _ _))]
      simp only [List.map_cons, List.sum_cons]
      ring

theorem sumRev_expenseStep (m : List (String × BatchStat)) (oe : Option Expense) :
    sumRev (expenseStep m oe) = sumRev m := by
  cases oe with
  | none => rfl
  | some e =>
    rcases hget : aget e.batchId m with _ | st
    · have hstep : expenseStep m (some e) = m := by simp [expenseStep, hget]
      rw [hstep]
    · have hstep : expenseStep m (some e) = aset e.batchId (bumpExp e st) m := by
        simp [expenseStep, hget]
      rw [hstep, sumRev_aset _ m hget]
      simp only [bumpExp]
      ring

theorem sumRev_foldl_expenseStep (l : List (Option Expense)) :
    ∀ (m : List (String × BatchStat)), sumRev (l.foldl expenseStep m) = sumRev m := by
  induction l with
  | nil => exact fun m => rfl
  | cons oe t ih =>
    intro m
    rw [List.foldl_cons, ih, sumRev_expenseStep]

theorem mem_aset_elim {α : Type} {e : String × α} {k : String} {v : α} :
    ∀ {m : List (String × α)}, e ∈ aset k v m → e ∈ m ∨ e = (k, v) := by
  intro m
  induction m with
  | nil =>
    intro h
    simp [aset] at h
    exact Or.inr h
  | cons x t ih =>
    intro h
    by_cases hx : x.1 = k
    · simp only [aset, if_pos hx, List.mem_cons] at h
      rcases h with h | h
      · exact Or.inr h
      · exact Or.inl (List.mem_cons_of_mem _ h)
    · simp only [aset, if_neg hx, List.mem_cons] at h
      rcases h with h | h
      · exact Or.inl (h ▸ List.mem_cons_self _ _)
      · rcases ih h with h2 | h2
        · exact Or.inl (List.mem_cons_of_mem _ h2)
        · exact Or.inr h2

theorem initfold_rev_zero (l : List (Option Purchase)) :
    ∀ (m : List (String × BatchStat)),
      (∀ e ∈ m, (e : String × BatchStat).2.salesRevenue = 0) →
      ∀ e ∈ l.foldl initStep m, (e : String × BatchStat).2.salesRevenue = 0 := by
  induction l with
  | nil => exact fun m h => h
  | cons op t ih =>
    intro m h
    rw [List.foldl_cons]
    refine ih _ ?_
    intro e he
    cases op with
    | none => exact h e he
    | some p =>
      simp only [initStep] at he
      rcases mem_aset_elim he with h2 | h2
      · exact h e h2
      · rw [h2]
        rfl

theorem sumRev_eq_zero {m : List (String × BatchStat)}
    (h : ∀ e ∈ m, (e : String × BatchStat).2.salesRevenue = 0) : sumRev m = 0 := by
  induction m with
  | nil => rfl
  | cons e t ih =>
    simp only [sumRev, List.map_cons, List.sum_cons]
    rw [h e (List.mem_cons_self _ _)]
    simp only [sumRev] at ih
    rw [ih (fun x hx => h x (List.mem_cons_of_mem _ hx))]
    ring

/-! ## Report-level characterizations -/

theorem perBatch_eq (s : Snapshot) :
    (calculateReports s).perBatch =
      ((s.expenses.getD []).foldl expenseStep
        ((s.sales.getD []).foldl saleStep
          ((s.purchases.getD []).foldl initStep []))).map (fun e => mkPerBatchRow e.1 e.2) := rfl

theorem customerDebts_eq (s : Snapshot) :
    (calculateReports s).customerDebts =
      ((s.payments.getD []).foldl custPayStep
        ((s.sales.getD []).foldl custSaleStep [])).map (fun e => mkDebtRow e.1 e.2) := rfl

theorem totals_revenue_eq (s : Snapshot) :
    (calculateReports s).totals.revenue =
      ((calculateReports s).perBatch.map (fun b => b.revenue)).sum := by
  have h : (calculateReports s).totals.revenue =
      ((calculateReports s).perBatch).foldl (fun a b => a + b.revenue) 0 := rfl
  rw [h, foldl_add_eq]
  ring

theorem totals_cogs_eq (s : Snapshot) :
    (calculateReports s).totals.cogs =
      ((calculateReports s).perBatch.map (fun b => b.cogs)).sum := by
  have h : (calculateReports s).totals.cogs =
      ((calculateReports s).perBatch).foldl (fun a b => a + b.cogs) 0 := rfl
  rw [h, foldl_add_eq]
  ring

theorem totals_expensesFull_eq (s : Snapshot) :
    (calculateReports s).totals.expensesFull =
      ((calculateReports s).perBatch.map (fun b => b.expensesTotal)).sum := by
  have h : (calculateReports s).totals.expensesFull =
      ((calculateReports s).perBatch).foldl (fun a b => a + b.expensesTotal) 0 := rfl
  rw [h, foldl_add_eq]
  ring

theorem totals_profit_eq (s : Snapshot) :
    (calculateReports s).totals.profit =
      ((calculateReports s).perBatch.map (fun b => b.profit)).sum := by
  have h : (calculateReports s).totals.profit =
      ((calculateReports s).perBatch).foldl (fun a b => a + b.profit) 0 := rfl
  rw [h, foldl_add_eq]
  ring

theorem totals_paidTotal_eq (s : Snapshot) :
    (calculateReports s).totals.paidTotal =
      ((calculateReports s).customerDebts.map (fun d => d.paid)).sum := by
  have h : (calculateReports s).totals.paidTotal =
      ((calculateReports s).customerDebts).foldl (fun a b => a + b.paid) 0 := rfl
  rw [h, foldl_add_eq]
  ring

theorem totals_unpaidTotal_eq (s : Snapshot) :
    (calculateReports s).totals.unpaidTotal =
      ((calculateReports s).customerDebts.map (fun d => max 0 d.balance)).sum := by
  have h : (calculateReports s).totals.unpaidTotal =
      ((calculateReports s).customerDebts).foldl (fun a b => a + max 0 b.balance) 0 := rfl
  rw [h, foldl_add_eq]
  ring

theorem totals_stockQty_eq (s : Snapshot) :
    (calculateReports s).totals.stockQty =
      ((calculateReports s).perBatch.map (fun b => b.stock)).sum := by
  have h : (calculateReports s).totals.stockQty =
      ((calculateReports s).perBatch).foldl (fun a b => a + b.stock) 0 := rfl
  rw [h, foldl_add_eq]
  ring

theorem totals_stockCost_eq (s : Snapshot) :
    (calculateReports s).totals.stockCost =
      ((calculateReports s).perBatch.map (fun b => b.stockCost)).sum := by
  have h : (calculateReports s).totals.stockCost =
      ((calculateReports s).perBatch).foldl (fun a b => a + b.stockCost) 0 := rfl
  rw [h, foldl_add_eq]
  ring

theorem akeys_fresh_map (l : List (Option Purchase)) :
    akeys ((l.filterMap id).map (fun p => (p.id, freshStat p))) = idsOf l := by
  simp [akeys, List.map_map, idsOf]

theorem stats0_eq_of_nodup {l : List (Option Purchase)} (h : (idsOf l).Nodup) :
    l.foldl initStep [] = (l.filterMap id).map (fun p => (p.id, freshStat p)) := by
  have := foldl_initStep_rep l [] h (by simp [akeys])
  simpa using this

theorem stats2_eq_of_nodup {pl : List (Option Purchase)} (sl : List (Option Sale))
    (el : List (Option Expense)) (h : (idsOf pl).Nodup) :
    el.foldl expenseStep (sl.foldl saleStep (pl.foldl initStep [])) =
      (pl.filterMap id).map (fun p => (p.id, statOf p sl el)) := by
  rw [stats0_eq_of_nodup h]
  have hk0 : (akeys ((pl.filterMap id).map (fun p => (p.id, freshStat p)))).Nodup := by
    rw [akeys_fresh_map]
    exact h
  rw [foldl_saleStep_eq_map sl _ hk0, List.map_map]
  have hk1 : (akeys (List.map
      ((fun e => (e.1, addSales e.1 sl e.2)) ∘ fun p => (p.id, freshStat p))
      (pl.filterMap id))).Nodup := by
    have : (List.map ((fun e : String × BatchStat => (e.1, addSales e.1 sl e.2)) ∘
        fun p => (p.id, freshStat p)) (pl.filterMap id)) =
        ((pl.filterMap id).map (fun p => (p.id, freshStat p))).map
          (fun e => (e.1, addSales e.1 sl e.2)) := by
      rw [List.map_map]
    rw [this, akeys_map_snd, akeys_fresh_map]
    exact h
  rw [foldl_expenseStep_eq_map el _ hk1, List.map_map]
  refine List.map_congr_left ?_
  intro p _
  simp [Function.comp, statOf]

theorem perBatch_eq_of_nodup (s : Snapshot) (h : (idsOf (s.purchases.getD [])).Nodup) :
    (calculateReports s).perBatch =
      ((s.purchases.getD []).filterMap id).map
        (fun p => mkPerBatchRow p.id (statOf p (s.sales.getD []) (s.expenses.getD []))) := by
  rw [perBatch_eq, stats2_eq_of_nodup _ _ h, List.map_map]
  rfl

theorem byCust_custVal (s : Snapshot) (c : String) :
    custVal c ((s.payments.getD []).foldl custPayStep
      ((s.sales.getD []).foldl custSaleStep [])) =
      (invSum c (s.sales.getD []), paySum c (s.payments.getD [])) := by
  rw [custVal_foldl_custPayStep, custVal_foldl_custSaleStep]
  simp [custVal, aget]

theorem mem_akeys_byCust (s : Snapshot) (c : String) :
    c ∈ akeys ((s.payments.getD []).foldl custPayStep
      ((s.sales.getD []).foldl custSaleStep [])) ↔
      c ∈ (s.sales.getD []).map saleCust ∨ c ∈ (s.payments.getD []).map payCust := by
  rw [mem_akeys_foldl_custPayStep, mem_akeys_foldl_custSaleStep]
  simp [akeys]

theorem nodup_akeys_byCust (s : Snapshot) :
    (akeys ((s.payments.getD []).foldl custPayStep
      ((s.sales.getD []).foldl custSaleStep []))).Nodup := by
  refine nodup_akeys_foldl_custPayStep _ _ ?_
  refine nodup_akeys_foldl_custSaleStep _ _ ?_
  simp [akeys]

theorem aget_byCust_eq (s : Snapshot) (c : String) :
    aget c ((s.payments.getD []).foldl custPayStep
      ((s.sales.getD []).foldl custSaleStep [])) =
      if c ∈ (s.sales.getD []).map saleCust ∨ c ∈ (s.payments.getD []).map payCust then
        some (invSum c (s.sales.getD []), paySum c (s.payments.getD []))
      else none := by
  by_cases h : c ∈ (s.sales.getD []).map saleCust ∨ c ∈ (s.payments.getD []).map payCust
  · rw [if_pos h]
    have hmem : c ∈ akeys ((s.payments.getD []).foldl custPayStep
        ((s.sales.getD []).foldl custSaleStep [])) := (mem_akeys_byCust s c).mpr h
    have hsome := (aget_isSome_iff c _).mpr hmem
    rcases hv : aget c ((s.payments.getD []).foldl custPayStep
        ((s.sales.getD []).foldl custSaleStep [])) with _ | v
    · rw [hv] at hsome
      exact absurd hsome (by simp)
    · have : custVal c ((s.payments.getD []).foldl custPayStep
          ((s.sales.getD []).foldl custSaleStep [])) = v := by
        simp [custVal, hv]
      rw [byCust_custVal] at this
      rw [this]
  · rw [if_neg h]
    rw [aget_eq_none_iff]
    exact fun hmem => h ((mem_akeys_byCust s c).mp hmem)

/-! ## Permutation invariance of the closed-form sums -/

theorem soldSum_perm {l l2 : List (Option Sale)} (h : l.Perm l2) (k : String) :
    soldSum k l = soldSum k l2 :=
  ((((h.filterMap id).filter _).map _).sum_eq : _)

theorem revSum_perm {l l2 : List (Option Sale)} (h : l.Perm l2) (k : String) :
    revSum k l = revSum k l2 :=
  ((((h.filterMap id).filter _).map _).sum_eq : _)

theorem expSum_perm {l l2 : List (Option Expense)} (h : l.Perm l2) (k : String) :
    expSum k l = expSum k l2 :=
  ((((h.filterMap id).filter _).map _).sum_eq : _)

theorem invSum_perm {l l2 : List (Option Sale)} (h : l.Perm l2) (c : String) :
    invSum c l = invSum c l2 :=
  (((h.filter _).map _).sum_eq : _)

theorem paySum_perm {l l2 : List (Option Payment)} (h : l.Perm l2) (c : String) :
    paySum c l = paySum c l2 :=
  (((h.filter _).map _).sum_eq : _)

theorem statOf_perm (p : Purchase) {sl sl2 : List (Option Sale)}
    {el el2 : List (Option Expense)} (hs : sl.Perm sl2) (he : el.Perm el2) :
    statOf p sl el = statOf p sl2 el2 := by
  simp only [statOf, addSales, addExps, soldSum_perm hs, revSum_perm hs, expSum_perm he]

/-! ## Reading a single customer row off the report -/

theorem invSum_eq_zero_of_not_mem {c : String} {l : List (Option Sale)}
    (h : c ∉ l.map saleCust) : invSum c l = 0 := by
  have : l.filter (fun os => saleCust os = c) = [] := by
    rw [List.filter_eq_nil_iff]
    intro os hos
    simp only [decide_eq_true_eq]
    exact fun hc => h (hc ▸ List.mem_map_of_mem saleCust hos)
  rw [invSum, this]
  rfl

theorem paySum_eq_zero_of_not_mem {c : String} {l : List (Option Payment)}
    (h : c ∉ l.map payCust) : paySum c l = 0 := by
  have : l.filter (fun op => payCust op = c) = [] := by
    rw [List.filter_eq_nil_iff]
    intro op hop
    simp only [decide_eq_true_eq]
    exact fun hc => h (hc ▸ List.mem_map_of_mem payCust hop)
  rw [paySum, this]
  rfl

theorem alist_filter_of_nodup {α : Type} {m : List (String × α)}
    (h : (akeys m).Nodup) (c : String) :
    m.filter (fun e => e.1 = c) = ((aget c m).map (fun v => (c, v))).toList := by
  induction m with
  | nil => simp [aget]
  | cons e t ih =>
    simp only [akeys, List.map_cons, List.nodup_cons] at h
    by_cases he : e.1 = c
    · have hnone : aget c t = none := by
        rw [aget_eq_none_iff]
        exact fun hmem => h.1 (he ▸ hmem)
      have hfil : t.filter (fun e => e.1 = c) = [] := by
        rw [ih h.2, hnone]
        rfl
      simp only [List.filter_cons, he, aget, hfil, decide_True, if_true, if_pos rfl,
        Option.map_some, Option.toList_some, ite_true, decide_eq_true_eq]
      rw [← he]
      simp
    · simp only [List.filter_cons, aget, he]
      simp only [decide_eq_true_eq, he, if_false, ite_false]
      exact ih h.2

theorem find?_map_mkDebt (c : String) :
    ∀ m : List (String × (ℚ × ℚ)),
      (m.map (fun e => mkDebtRow e.1 e.2)).find? (fun d => d.customer = c) =
        (aget c m).map (fun v => mkDebtRow c v) := by
  intro m
  induction m with
  | nil => simp [aget]
  | cons e t ih =>
    by_cases he : e.1 = c
    · subst he
      simp [List.find?_cons, mkDebtRow, aget, ih]
    · have : ((mkDebtRow e.1 e.2).customer = c) = False := by
        simp [mkDebtRow, he]
      simp only [List.map_cons, List.find?_cons, this, decide_False]
      rw [aget, if_neg he]
      exact ih

theorem invoicedOf_eq (s : Snapshot) (c : String) :
    invoicedOf (calculateReports s) c = invSum c (s.sales.getD []) := by
  rw [invoicedOf, customerDebts_eq]
  rw [List.filter_map]
  have hcomp : ((fun d : CustomerDebt => decide (d.customer = c)) ∘
      fun e : String × (ℚ × ℚ) => mkDebtRow e.1 e.2) = fun e => decide (e.1 = c) := by
    funext e
    simp [mkDebtRow, Function.comp]
  rw [hcomp, alist_filter_of_nodup (nodup_akeys_byCust s) c, aget_byCust_eq]
  by_cases h : c ∈ (s.sales.getD []).map saleCust ∨ c ∈ (s.payments.getD []).map payCust
  · rw [if_pos h]
    simp [mkDebtRow]
  · rw [if_neg h]
    push_neg at h
    rw [invSum_eq_zero_of_not_mem h.1]
    simp

theorem paidOf_eq (s : Snapshot) (c : String) :
    paidOf (calculateReports s) c = paySum c (s.payments.getD []) := by
  rw [paidOf, customerDebts_eq]
  rw [List.filter_map]
  have hcomp : ((fun d : CustomerDebt => decide (d.customer = c)) ∘
      fun e : String × (ℚ × ℚ) => mkDebtRow e.1 e.2) = fun e => decide (e.1 = c) := by
    funext e
    simp [mkDebtRow, Function.comp]
  rw [hcomp, alist_filter_of_nodup (nodup_akeys_byCust s) c, aget_byCust_eq]
  by_cases h : c ∈ (s.sales.getD []).map saleCust ∨ c ∈ (s.payments.getD []).map payCust
  · rw [if_pos h]
    simp [mkDebtRow]
  · rw [if_neg h]
    push_neg at h
    rw [paySum_eq_zero_of_not_mem h.2]
    simp

theorem debtLookup_eq (s : Snapshot) (c : String) :
    debtLookup (calculateReports s) c =
      if c ∈ (s.sales.getD []).map saleCust ∨ c ∈ (s.payments.getD []).map payCust then
        some (mkDebtRow c (invSum c (s.sales.getD []), paySum c (s.payments.getD [])))
      else none := by
  rw [debtLookup, customerDebts_eq, find?_map_mkDebt, aget_byCust_eq]
  by_cases h : c ∈ (s.sales.getD []).map saleCust ∨ c ∈ (s.payments.getD []).map payCust
  · rw [if_pos h, if_pos h]
    rfl
  · rw [if_neg h, if_neg h]
    rfl

/-! ## Folds over the empty batch map, appended collections, name splitting -/

theorem saleStep_nil (os : Option Sale) : saleStep [] os = [] := by
  cases os with
  | none => rfl
  | some s => simp [saleStep, aget]

theorem foldl_saleStep_nil (l : List (Option Sale)) : l.foldl saleStep [] = [] := by
  induction l with
  | nil => rfl
  | cons os t ih => rw [List.foldl_cons, saleStep_nil, ih]

theorem expenseStep_nil (oe : Option Expense) : expenseStep [] oe = [] := by
  cases oe with
  | none => rfl
  | some e => simp [expenseStep, aget]

theorem foldl_expenseStep_nil (l : List (Option Expense)) : l.foldl expenseStep [] = [] := by
  induction l with
  | nil => rfl
  | cons oe t ih => rw [List.foldl_cons, expenseStep_nil, ih]

theorem invSum_append (c : String) (a b : List (Option Sale)) :
    invSum c (a ++ b) = invSum c a + invSum c b := by
  simp [invSum, List.filter_append]

theorem splitDash_ne_nil (cs : List Char) : splitDash cs ≠ [] := by
  cases cs with
  | nil => simp [splitDash]
  | cons c t =>
    by_cases h : c = '-'
    · simp [splitDash, h]
    · simp only [splitDash, h, if_false, ite_false]
      rcases hs : splitDash t with _ | ⟨x, r⟩ <;> simp

theorem splitDash_no_dash {a : List Char} (h : '-' ∉ a) : splitDash a = [a] := by
  induction a with
  | nil => rfl
  | cons c t ih =>
    have hc : c ≠ '-' := fun hh => h (hh ▸ List.mem_cons_self _ _)
    have ht : '-' ∉ t := fun hh => h (List.mem_cons_of_mem _ hh)
    simp [splitDash, hc, ih ht]

theorem splitDash_append {a : List Char} (rest : List Char) (h : '-' ∉ a) :
    splitDash (a ++ '-' :: rest) = a :: splitDash rest := by
  induction a with
  | nil => simp [splitDash]
  | cons c t ih =>
    have hc : c ≠ '-' := fun hh => h (hh ▸ List.mem_cons_self _ _)
    have ht : '-' ∉ t := fun hh => h (List.mem_cons_of_mem _ hh)
    simp only [List.cons_append, splitDash, hc, if_false, ite_false, List.append_eq]
    rw [ih ht]

/-! ## Permutation of the customer ledger -/

theorem customerDebts_rep (s : Snapshot) :
    (calculateReports s).customerDebts =
      (akeys ((s.payments.getD []).foldl custPayStep
        ((s.sales.getD []).foldl custSaleStep []))).map
        (fun c => mkDebtRow c (invSum c (s.sales.getD []), paySum c (s.payments.getD []))) := by
  have hrep := alist_eq_map_akeys ((0 : ℚ), (0 : ℚ)) (nodup_akeys_byCust s)
  rw [customerDebts_eq]
  conv_lhs => rw [hrep]
  rw [List.map_map]
  refine List.map_congr_left ?_
  intro c _
  have h := byCust_custVal s c
  simp only [custVal] at h
  simp only [Prod.mk_zero_zero] at h
  simp [Function.comp, h]

theorem akeys_byCust_perm {sA sB : Snapshot}
    (hs : (sA.sales.getD []).Perm (sB.sales.getD []))
    (hpay : (sA.payments.getD []).Perm (sB.payments.getD [])) :
    (akeys ((sA.payments.getD []).foldl custPayStep
      ((sA.sales.getD []).foldl custSaleStep []))).Perm
      (akeys ((sB.payments.getD []).foldl custPayStep
        ((sB.sales.getD []).foldl custSaleStep []))) := by
  rw [List.perm_ext_iff_of_nodup (nodup_akeys_byCust sA) (nodup_akeys_byCust sB)]
  intro c
  rw [mem_akeys_byCust, mem_akeys_byCust]
  constructor
  · intro h
    rcases h with h | h
    · exact Or.inl ((hs.map saleCust).mem_iff.mp h)
    · exact Or.inr ((hpay.map payCust).mem_iff.mp h)
  · intro h
    rcases h with h | h
    · exact Or.inl ((hs.map saleCust).mem_iff.mpr h)
    · exact Or.inr ((hpay.map payCust).mem_iff.mpr h)

theorem customerDebts_perm {sA sB : Snapshot}
    (hs : (sA.sales.getD []).Perm (sB.sales.getD []))
    (hpay : (sA.payments.getD []).Perm (sB.payments.getD [])) :
    (calculateReports sA).customerDebts.Perm (calculateReports sB).customerDebts := by
  rw [customerDebts_rep sA, customerDebts_rep sB]
  have hkeys := akeys_byCust_perm hs hpay
  refine (hkeys.map _).trans ?_
  rw [List.map_congr_left ?_]
  intro c _
  rw [invSum_perm hs, paySum_perm hpay]

/-! ## The claims -/

/-- C1 (counterexample): a snapshot with empty purchases, one dangling sale
and one payment still gets nonzero `paidTotal` and `unpaidTotal`, so not
every field of `totals` is zero as the claim states. -/
theorem claim1_counterexample :
    c1Snap.purchases = some [] ∧ (calculateReports c1Snap).totals.paidTotal = 10
    ∧ (calculateReports c1Snap).totals.unpaidTotal = 22 :=
  ⟨rfl, by decide, by decide⟩

/-- C1 (amended): for every snapshot whose purchases collection is empty,
`perBatch` is empty and the batch-derived totals fields (revenue, cogs,
expensesFull, profit, stockQty, stockCost) are zero; `paidTotal` and
`unpaidTotal` come from the customer ledger and need not be zero. -/
theorem claim1_empty_purchases (s : Snapshot) (h : s.purchases.getD [] = []) :
    (calculateReports s).perBatch = []
    ∧ (calculateReports s).totals.revenue = 0
    ∧ (calculateReports s).totals.cogs = 0
    ∧ (calculateReports s).totals.expensesFull = 0
    ∧ (calculateReports s).totals.profit = 0
    ∧ (calculateReports s).totals.stockQty = 0
    ∧ (calculateReports s).totals.stockCost = 0 := by
  have hpb : (calculateReports s).perBatch = [] := by
    rw [perBatch_eq, h]
    rw [show ([] : List (Option Purchase)).foldl initStep [] = [] from rfl]
    rw [foldl_saleStep_nil, foldl_expenseStep_nil]
    rfl
  refine ⟨hpb, ?_, ?_, ?_, ?_, ?_, ?_⟩
  · rw [totals_revenue_eq, hpb]
    rfl
  · rw [totals_cogs_eq, hpb]
    rfl
  · rw [totals_expensesFull_eq, hpb]
    rfl
  · rw [totals_profit_eq, hpb]
    rfl
  · rw [totals_stockQty_eq, hpb]
    rfl
  · rw [totals_stockCost_eq, hpb]
    rfl

/-- C1 (witness): the amended theorem applied to the concrete empty-purchases
snapshot. -/
theorem claim1_witness :
    c1Snap.purchases.getD [] = [] ∧ (calculateReports c1Snap).totals.revenue = 0 :=
  ⟨rfl, (claim1_empty_purchases c1Snap rfl).2.1⟩

/-- C3: in every report, each per-batch row satisfies
`profit = revenue - cogs - expensesTotal` with `cogs = unitCost * sold`
(the full unallocated expense total deducted), and `totals.profit` is the sum
of the per-batch profits. -/
theorem claim3_profit_identity (s : Snapshot) :
    (∀ b ∈ (calculateReports s).perBatch,
      b.profit = b.revenue - b.cogs - b.expensesTotal ∧ b.cogs = b.unitCost * b.sold)
    ∧ (calculateReports s).totals.profit =
        ((calculateReports s).perBatch.map (fun b => b.profit)).sum := by
  constructor
  · intro b hb
    rw [perBatch_eq] at hb
    rcases List.mem_map.mp hb with ⟨e, _, rfl⟩
    exact ⟨rfl, rfl⟩
  · exact totals_profit_eq s

/-- C3 (witness): the profit identity evaluated on the self-test snapshot. -/
theorem claim3_witness :
    demoRow ∈ (calculateReports demoSnap).perBatch
    ∧ demoRow.profit = demoRow.revenue - demoRow.cogs - demoRow.expensesTotal :=
  ⟨by decide, ((claim3_profit_identity demoSnap).1 demoRow (by decide)).1⟩

/-- C4: in every report, each per-batch row satisfies
`stock = max 0 (purchased - sold)` (hence stock is never negative), and
`overSold = true` exactly when `sold > purchased`; over-selling raises no
error, the row is still produced. -/
theorem claim4_stock_clamped (s : Snapshot) :
    ∀ b ∈ (calculateReports s).perBatch,
      b.stock = max 0 (b.purchased - b.sold) ∧ 0 ≤ b.stock
      ∧ (b.overSold = true ↔ b.sold > b.purchased) := by
  intro b hb
  rw [perBatch_eq] at hb
  rcases List.mem_map.mp hb with ⟨e, _, rfl⟩
  refine ⟨rfl, le_max_left 0 _, ?_⟩
  simp [mkPerBatchRow]

/-- C4 (witness): the stock-clamping facts evaluated on the self-test
snapshot. -/
theorem claim4_witness :
    demoRow ∈ (calculateReports demoSnap).perBatch
    ∧ demoRow.stock = max 0 (demoRow.purchased - demoRow.sold) :=
  ⟨by decide, (claim4_stock_clamped demoSnap demoRow (by decide)).1⟩

/-- C5: in every report, each customer-debt row satisfies
`balance = invoiced - paid` (never clamped, so it may be negative), and
`totals.unpaidTotal` is the sum of `max 0 balance` over the rows, so a
customer in credit contributes exactly zero. -/
theorem claim5_balance (s : Snapshot) :
    (∀ d ∈ (calculateReports s).customerDebts, d.balance = d.invoiced - d.paid)
    ∧ (calculateReports s).totals.unpaidTotal =
        ((calculateReports s).customerDebts.map (fun d => max 0 d.balance)).sum := by
  constructor
  · intro d hd
    rw [customerDebts_eq] at hd
    rcases List.mem_map.mp hd with ⟨e, _, rfl⟩
    rfl
  · exact totals_unpaidTotal_eq s

/-- C5 (witness): the balance identity evaluated on the self-test snapshot. -/
theorem claim5_witness :
    demoDebt ∈ (calculateReports demoSnap).customerDebts
    ∧ demoDebt.balance = demoDebt.invoiced - demoDebt.paid :=
  ⟨by decide, (claim5_balance demoSnap).1 demoDebt (by decide)⟩

/-- C7: numeric normalization replaces every comma with a period and parses
the result as a number, with non-numeric or empty input normalizing to zero:
the six documented cases evaluate as specified, and on every string input
`parseNum` is exactly comma-replacement followed by JS number parsing with
fallback zero. -/
theorem claim7_parseNum :
    parseNum (.str "1,5") = 3/2 ∧ parseNum (.str "1.5") = 3/2
    ∧ parseNum (.str "") = 0 ∧ parseNum (.str "abc") = 0
    ∧ parseNum .null = 0 ∧ parseNum .undef = 0
    ∧ ∀ s : String, parseNum (.str s) = (jsNumber (replaceCommas s)).getD 0 :=
  ⟨by decide, by decide, by decide, by decide, rfl, rfl, fun _ => rfl⟩

/-- C8: the engine is total over its documented domain, and a missing or
not-a-list collection (modelled `none`) is treated exactly as an empty
collection: replacing any single collection by its normalization, or all four
at once, leaves the report unchanged. -/
theorem claim8_normalization (s : Snapshot) :
    calculateReports s =
        calculateReports { s with purchases := some (s.purchases.getD []) }
    ∧ calculateReports s = calculateReports { s with sales := some (s.sales.getD []) }
    ∧ calculateReports s = calculateReports { s with expenses := some (s.expenses.getD []) }
    ∧ calculateReports s = calculateReports { s with payments := some (s.payments.getD []) }
    ∧ calculateReports s = calculateReports (snapNormalized s) := by
  obtain ⟨p, sl, e, pay⟩ := s
  refine ⟨?_, ?_, ?_, ?_, ?_⟩
  · cases p <;> rfl
  · cases sl <;> rfl
  · cases e <;> rfl
  · cases pay <;> rfl
  · cases p <;> cases sl <;> cases e <;> cases pay <;> rfl

/-- C10: when every non-null sale resolves to an existing purchase id, the sum
of invoiced amounts over the customer-debt rows equals `totals.revenue`: the
two halves of the report reconcile. -/
theorem claim10_reconciliation (s : Snapshot)
    (h : ∀ x ∈ (s.sales.getD []).filterMap id,
      (x : Sale).batchId ∈ idsOf (s.purchases.getD [])) :
    ((calculateReports s).customerDebts.map (fun d => d.invoiced)).sum =
      (calculateReports s).totals.revenue := by
  have hL : ((calculateReports s).customerDebts.map (fun d => d.invoiced)).sum =
      sumInv ((s.payments.getD []).foldl custPayStep
        ((s.sales.getD []).foldl custSaleStep [])) := by
    rw [customerDebts_eq, List.map_map]
    rfl
  have hR : (calculateReports s).totals.revenue =
      sumRev ((s.expenses.getD []).foldl expenseStep
        ((s.sales.getD []).foldl saleStep
          ((s.purchases.getD []).foldl initStep []))) := by
    rw [totals_revenue_eq, perBatch_eq, List.map_map]
    rfl
  rw [hL, hR]
  rw [sumInv_foldl_custPayStep, sumInv_foldl_custSaleStep]
  rw [sumRev_foldl_expenseStep]
  rw [sumRev_foldl_saleStep _ _ ?hres]
  case hres =>
    intro x hx
    rw [mem_akeys_foldl_initStep]
    exact Or.inr (h x (List.mem_filterMap.mpr ⟨some x, hx, rfl⟩))
  rw [sumRev_eq_zero (initfold_rev_zero _ _ (by simp))]
  simp [sumInv]

/-- C10 (witness): reconciliation on the self-test snapshot, whose single
sale resolves to the single purchase. -/
theorem claim10_witness :
    (∀ x ∈ (demoSnap.sales.getD []).filterMap id,
      (x : Sale).batchId ∈ idsOf (demoSnap.purchases.getD []))
    ∧ ((calculateReports demoSnap).customerDebts.map (fun d => d.invoiced)).sum =
        (calculateReports demoSnap).totals.revenue :=
  ⟨by decide, claim10_reconciliation demoSnap (by decide)⟩

/-- C2: a sale whose `batchId` matches no purchase id changes no per-batch
statistics and not `totals.revenue`, but adds its `quantity * unitPrice` to
its customer's invoiced total; an expense whose `batchId` matches no purchase
id changes nothing at all — the whole report is unchanged. -/
theorem claim2_dangling :
    (∀ (s : Snapshot) (l1 l2 : List (Option Sale)) (x : Sale),
      s.sales = some (l1 ++ some x :: l2) →
      x.batchId ∉ idsOf (s.purchases.getD []) →
      (calculateReports s).perBatch =
          (calculateReports { s with sales := some (l1 ++ l2) }).perBatch
        ∧ (calculateReports s).totals.revenue =
            (calculateReports { s with sales := some (l1 ++ l2) }).totals.revenue
        ∧ invoicedOf (calculateReports s) (saleCust (some x)) =
            invoicedOf (calculateReports { s with sales := some (l1 ++ l2) })
              (saleCust (some x)) + saleAmt (some x))
    ∧ (∀ (s : Snapshot) (l1 l2 : List (Option Expense)) (e : Expense),
      s.expenses = some (l1 ++ some e :: l2) →
      e.batchId ∉ idsOf (s.purchases.getD []) →
      calculateReports s = calculateReports { s with expenses := some (l1 ++ l2) }) := by
  constructor
  · intro s l1 l2 x hsales hdang
    have hx : x.batchId ∉ akeys (l1.foldl saleStep
        ((s.purchases.getD []).foldl initStep [])) := by
      rw [foldl_saleStep_akeys]
      intro hmem
      rcases (mem_akeys_foldl_initStep _ _ _).mp hmem with hmem | hmem
      · simp [akeys] at hmem
      · exact hdang hmem
    have hskip : saleStep (l1.foldl saleStep
        ((s.purchases.getD []).foldl initStep [])) (some x) =
        l1.foldl saleStep ((s.purchases.getD []).foldl initStep []) := by
      simp [saleStep, (aget_eq_none_iff _ _).mpr hx]
    have hfold : (l1 ++ some x :: l2).foldl saleStep
        ((s.purchases.getD []).foldl initStep []) =
        (l1 ++ l2).foldl saleStep ((s.purchases.getD []).foldl initStep []) := by
      rw [List.foldl_append, List.foldl_append, List.foldl_cons, hskip]
    have hPB : (calculateReports s).perBatch =
        (calculateReports { s with sales := some (l1 ++ l2) }).perBatch := by
      rw [perBatch_eq, perBatch_eq, hsales]
      simp only [Option.getD_some]
      rw [hfold]
    refine ⟨hPB, ?_, ?_⟩
    · rw [totals_revenue_eq, totals_revenue_eq, hPB]
    · rw [invoicedOf_eq, invoicedOf_eq, hsales]
      simp only [Option.getD_some]
      rw [show l1 ++ some x :: l2 = l1 ++ [some x] ++ l2 by simp]
      rw [invSum_append, invSum_append, invSum_cons]
      rw [if_pos rfl]
      simp only [invSum_nil, add_zero, zero_add]
      rw [invSum_append]
      ring
  · intro s l1 l2 e hexp hdang
    have hx : e.batchId ∉ akeys (l1.foldl expenseStep
        ((s.sales.getD []).foldl saleStep
          ((s.purchases.getD []).foldl initStep []))) := by
      rw [foldl_expenseStep_akeys, foldl_saleStep_akeys]
      intro hmem
      rcases (mem_akeys_foldl_initStep _ _ _).mp hmem with hmem | hmem
      · simp [akeys] at hmem
      · exact hdang hmem
    have hskip : expenseStep (l1.foldl expenseStep
        ((s.sales.getD []).foldl saleStep
          ((s.purchases.getD []).foldl initStep []))) (some e) =
        l1.foldl expenseStep ((s.sales.getD []).foldl saleStep
          ((s.purchases.getD []).foldl initStep [])) := by
      simp [expenseStep, (aget_eq_none_iff _ _).mpr hx]
    have hfold : (l1 ++ some e :: l2).foldl expenseStep
        ((s.sales.getD []).foldl saleStep
          ((s.purchases.getD []).foldl initStep [])) =
        (l1 ++ l2).foldl expenseStep ((s.sales.getD []).foldl saleStep
          ((s.purchases.getD []).foldl initStep [])) := by
      rw [List.foldl_append, List.foldl_append, List.foldl_cons, hskip]
    have hPB : (calculateReports s).perBatch =
        (calculateReports { s with expenses := some (l1 ++ l2) }).perBatch := by
      rw [perBatch_eq, perBatch_eq, hexp]
      simp only [Option.getD_some]
      rw [hfold]
    have hCD : (calculateReports s).customerDebts =
        (calculateReports { s with expenses := some (l1 ++ l2) }).customerDebts := by
      rw [customerDebts_eq, customerDebts_eq]
    have hT : (calculateReports s).totals =
        (calculateReports { s with expenses := some (l1 ++ l2) }).totals := by
      ext
      · rw [totals_revenue_eq, totals_revenue_eq, hPB]
      · rw [totals_cogs_eq, totals_cogs_eq, hPB]
      · rw [totals_expensesFull_eq, totals_expensesFull_eq, hPB]
      · rw [totals_profit_eq, totals_profit_eq, hPB]
      · rw [totals_paidTotal_eq, totals_paidTotal_eq, hCD]
      · rw [totals_unpaidTotal_eq, totals_unpaidTotal_eq, hCD]
      · rw [totals_stockQty_eq, totals_stockQty_eq, hPB]
      · rw [totals_stockCost_eq, totals_stockCost_eq, hPB]
    exact Report.ext hPB hCD hT

/-- C2 (witness): inserting the concrete dangling sale and dangling expense
into the self-test snapshot. -/
theorem claim2_witness :
    (c2SaleSnap.sales = some ([] ++ some danglingSale ::
        [some { batchId := "b1", customer := "Ali", qty := .num 4, unitPrice := .num 8 }])
      ∧ danglingSale.batchId ∉ idsOf (c2SaleSnap.purchases.getD [])
      ∧ invoicedOf (calculateReports c2SaleSnap) (saleCust (some danglingSale)) =
          invoicedOf (calculateReports { c2SaleSnap with
            sales := some ([] ++
              [some { batchId := "b1", customer := "Ali", qty := .num 4, unitPrice := .num 8 }]) })
            (saleCust (some danglingSale)) + saleAmt (some danglingSale))
    ∧ (c2ExpSnap.expenses = some ([] ++ some danglingExpense ::
        [some { batchId := "b1", amount := .num 20 }])
      ∧ danglingExpense.batchId ∉ idsOf (c2ExpSnap.purchases.getD [])
      ∧ calculateReports c2ExpSnap = calculateReports { c2ExpSnap with
          expenses := some ([] ++ [some { batchId := "b1", amount := .num 20 }]) }) :=
  ⟨⟨rfl, by decide,
    (claim2_dangling.1 c2SaleSnap []
      [some { batchId := "b1", customer := "Ali", qty := .num 4, unitPrice := .num 8 }]
      danglingSale rfl (by decide)).2.2⟩,
   ⟨rfl, by decide,
    claim2_dangling.2 c2ExpSnap [] [some { batchId := "b1", amount := .num 20 }]
      danglingExpense rfl (by decide)⟩⟩

/-- C9 (counterexample): with two purchases sharing one id, permuting the
purchases changes which record wins the overwrite in the batch map, so the
reports differ — order-independence fails without distinct purchase ids. -/
theorem claim9_counterexample :
    (c9SnapA.purchases.getD []).Perm (c9SnapB.purchases.getD [])
    ∧ c9SnapA.sales = c9SnapB.sales ∧ c9SnapA.expenses = c9SnapB.expenses
    ∧ c9SnapA.payments = c9SnapB.payments
    ∧ (calculateReports c9SnapA).totals.stockCost = 6
    ∧ (calculateReports c9SnapB).totals.stockCost = 1
    ∧ (calculateReports c9SnapA).totals ≠ (calculateReports c9SnapB).totals :=
  ⟨by decide, rfl, rfl, rfl, by decide, by decide, by decide⟩

/-- C9 (amended): for snapshots whose purchases carry pairwise-distinct ids
(the data-model invariant), permuting any of the four collections yields the
same per-batch statistics (as a multiset), the same customer-debt rows per
customer key, and identical totals; recomputation is deterministic. -/
theorem claim9_order_independence (sA sB : Snapshot)
    (hnd : (idsOf (sA.purchases.getD [])).Nodup)
    (hp : (sA.purchases.getD []).Perm (sB.purchases.getD []))
    (hs : (sA.sales.getD []).Perm (sB.sales.getD []))
    (he : (sA.expenses.getD []).Perm (sB.expenses.getD []))
    (hpay : (sA.payments.getD []).Perm (sB.payments.getD [])) :
    (calculateReports sA).perBatch.Perm (calculateReports sB).perBatch
    ∧ (∀ c, debtLookup (calculateReports sA) c = debtLookup (calculateReports sB) c)
    ∧ (calculateReports sA).totals = (calculateReports sB).totals
    ∧ calculateReports sA = calculateReports sA := by
  have hidsPerm : (idsOf (sA.purchases.getD [])).Perm (idsOf (sB.purchases.getD [])) :=
    (hp.filterMap id).map (fun p : Purchase => p.id)
  have hndB : (idsOf (sB.purchases.getD [])).Nodup := hidsPerm.nodup_iff.mp hnd
  have hPB : (calculateReports sA).perBatch.Perm (calculateReports sB).perBatch := by
    rw [perBatch_eq_of_nodup sA hnd, perBatch_eq_of_nodup sB hndB]
    have h1 : ((sA.purchases.getD []).filterMap id).Perm
        ((sB.purchases.getD []).filterMap id) := hp.filterMap id
    have h2 : ((sB.purchases.getD []).filterMap id).map
        (fun p => mkPerBatchRow p.id (statOf p (sA.sales.getD []) (sA.expenses.getD []))) =
        ((sB.purchases.getD []).filterMap id).map
          (fun p => mkPerBatchRow p.id (statOf p (sB.sales.getD []) (sB.expenses.getD []))) :=
      List.map_congr_left (fun p _ => by rw [statOf_perm p hs he])
    exact h2 ▸ (h1.map _)
  have hCD := customerDebts_perm hs hpay
  refine ⟨hPB, ?_, ?_, rfl⟩
  · intro c
    rw [debtLookup_eq, debtLookup_eq]
    by_cases hcond : c ∈ (sA.sales.getD []).map saleCust
        ∨ c ∈ (sA.payments.getD []).map payCust
    · have hcondB : c ∈ (sB.sales.getD []).map saleCust
          ∨ c ∈ (sB.payments.getD []).map payCust := by
        rcases hcond with hcond | hcond
        · exact Or.inl ((hs.map saleCust).mem_iff.mp hcond)
        · exact Or.inr ((hpay.map payCust).mem_iff.mp hcond)
      rw [if_pos hcond, if_pos hcondB, invSum_perm hs, paySum_perm hpay]
    · have hcondB : ¬(c ∈ (sB.sales.getD []).map saleCust
          ∨ c ∈ (sB.payments.getD []).map payCust) := by
        intro hc
        refine hcond ?_
        rcases hc with hc | hc
        · exact Or.inl ((hs.map saleCust).mem_iff.mpr hc)
        · exact Or.inr ((hpay.map payCust).mem_iff.mpr hc)
      rw [if_neg hcond, if_neg hcondB]
  · ext
    · rw [totals_revenue_eq, totals_revenue_eq]
      exact (hPB.map _).sum_eq
    · rw [totals_cogs_eq, totals_cogs_eq]
      exact (hPB.map _).sum_eq
    · rw [totals_expensesFull_eq, totals_expensesFull_eq]
      exact (hPB.map _).sum_eq
    · rw [totals_profit_eq, totals_profit_eq]
      exact (hPB.map _).sum_eq
    · rw [totals_paidTotal_eq, totals_paidTotal_eq]
      exact (hCD.map _).sum_eq
    · rw [totals_unpaidTotal_eq, totals_unpaidTotal_eq]
      exact (hCD.map _).sum_eq
    · rw [totals_stockQty_eq, totals_stockQty_eq]
      exact (hPB.map _).sum_eq
    · rw [totals_stockCost_eq, totals_stockCost_eq]
      exact (hPB.map _).sum_eq

/-- C9 (witness): order-independence applied to a concrete two-batch snapshot
and its permutation. -/
theorem claim9_witness :
    ((idsOf (c9WitA.purchases.getD [])).Nodup
      ∧ (c9WitA.purchases.getD []).Perm (c9WitB.purchases.getD [])
      ∧ (c9WitA.sales.getD []).Perm (c9WitB.sales.getD [])
      ∧ (c9WitA.expenses.getD []).Perm (c9WitB.expenses.getD [])
      ∧ (c9WitA.payments.getD []).Perm (c9WitB.payments.getD []))
    ∧ (calculateReports c9WitA).totals = (calculateReports c9WitB).totals :=
  ⟨⟨by decide, by decide, by decide, by decide, by decide⟩,
   (claim9_order_independence c9WitA c9WitB (by decide) (by decide) (by decide)
     (by decide) (by decide)).2.2.1⟩

/-- C6 (counterexample): the date `foo-bar-baz` is not parseable as a date,
yet the derived name is `P - bazbarfoo`, not the sentinel `P - ?` — the
sentinel appears only for a missing/empty date. -/
theorem claim6_counterexample :
    batchNameOf (some ⟨"p1", some "foo-bar-baz", .undef, .undef, none, none⟩) = "P - bazbarfoo"
    ∧ ("P - bazbarfoo" : String) ≠ "P - ?" :=
  ⟨by decide, by decide⟩

/-- C6 (amended): with no stored name, date `2025-09-01` and no stored
sequence gives `P - 01092025`; explicit sequence `02` gives
`P - 01092025-02`; a missing or empty date (with no stored sequence) gives
the sentinel `P - ?`; a stored nonempty `batchName` is returned unchanged;
and any date of shape `Y-M-D` with nonempty dash-free fields is formatted as
the literal `P - ` followed by day, month, year with no separators. -/
theorem claim6_batch_name :
    (∀ i q u, batchNameOf (some ⟨i, some "2025-09-01", q, u, none, none⟩) = "P - 01092025")
    ∧ (∀ i q u, batchNameOf (some ⟨i, some "2025-09-01", q, u, some "02", none⟩) =
        "P - 01092025-02")
    ∧ (∀ i q u, batchNameOf (some ⟨i, none, q, u, none, none⟩) = "P - ?")
    ∧ (∀ i q u, batchNameOf (some ⟨i, some "", q, u, none, none⟩) = "P - ?")
    ∧ (∀ (p : Purchase) (nm : String), p.batchName = some nm → nm ≠ "" →
        batchNameOf (some p) = nm)
    ∧ (∀ i q u (y m d : String), y ≠ "" → m ≠ "" → d ≠ "" →
        '-' ∉ y.data → '-' ∉ m.data → '-' ∉ d.data →
        batchNameOf (some ⟨i, some (y ++ "-" ++ m ++ "-" ++ d), q, u, none, none⟩) =
          "P - " ++ d ++ m ++ y) := by
  refine ⟨fun i q u => rfl, fun i q u => rfl, fun i q u => rfl, fun i q u => rfl, ?_, ?_⟩
  · intro p nm hnm hne
    simp [batchNameOf, hnm, hne]
  · intro i q u y m d hy hm hd hdy hdm hdd
    have hyd : y.data ≠ [] := by
      intro hh
      apply hy
      cases y
      simp_all
    have hmd : m.data ≠ [] := by
      intro hh
      apply hm
      cases m
      simp_all
    have hdd2 : d.data ≠ [] := by
      intro hh
      apply hd
      cases d
      simp_all
    have hdata : (y ++ "-" ++ m ++ "-" ++ d).data =
        y.data ++ '-' :: (m.data ++ '-' :: d.data) := by
      simp [String.data_append]
    have hsplit : splitDash ((y ++ "-" ++ m ++ "-" ++ d).data) =
        [y.data, m.data, d.data] := by
      rw [hdata, splitDash_append _ hdy, splitDash_append _ hdm, splitDash_no_dash hdd]
    have hne2 : (y ++ "-" ++ m ++ "-" ++ d) ≠ "" := by
      intro hh
      have h2 := congrArg String.data hh
      rw [hdata] at h2
      cases hcy : y.data with
      | nil => exact hyd hcy
      | cons a t =>
        rw [hcy] at h2
        simp at h2
    show formatBatchNameFromDate (some (y ++ "-" ++ m ++ "-" ++ d)) = "P - " ++ d ++ m ++ y
    rw [formatBatchNameFromDate, if_neg hne2, hsplit]
    have hys : y.data.isEmpty = false := by
      simp [List.isEmpty_iff]
      exact hyd
    have hms : m.data.isEmpty = false := by
      simp [List.isEmpty_iff]
      exact hmd
    have hds : d.data.isEmpty = false := by
      simp [List.isEmpty_iff]
      exact hdd2
    simp only [hys, hms, hds, Bool.not_false, if_pos, and_self, ite_true]

/-- C6 (witness): the general formatting clause applied to the concrete date
`2025-09-01`. -/
theorem claim6_witness :
    (("2025" : String) ≠ "" ∧ ("09" : String) ≠ "" ∧ ("01" : String) ≠ ""
      ∧ '-' ∉ ("2025" : String).data ∧ '-' ∉ ("09" : String).data
      ∧ '-' ∉ ("01" : String).data)
    ∧ batchNameOf
        (some ⟨"p1", some ("2025" ++ "-" ++ "09" ++ "-" ++ "01"), .undef, .undef, none, none⟩) =
        "P - " ++ "01" ++ "09" ++ "2025" :=
  ⟨⟨by decide, by decide, by decide, by decide, by decide, by decide⟩,
   claim6_batch_name.2.2.2.2.2 ("p1") .undef .undef ("2025") ("09") ("01")
     (by decide) (by decide) (by decide) (by decide) (by decide) (by decide)⟩
